import Mathlib

/-!
# ska: template instantiation (`main.go`)

A shallow embedding of `main.go`: the path resolver `prepareFilepath`, the tree
walker `walk` with its generator `gen`, and the driver closure of `main` with its
edit loop, followed by the properties proved about them.

Conventions.

* A Go `string` is a byte sequence.  It is represented by `GoString = List Char`,
  one `Char` per byte (the code point is the byte value), so an ASCII literal
  `"abc".toList` is the Go string `"abc"` and `List.length` is Go's `len`.
* The operating system, the TOML decoder, the editor and the template library are
  collaborators: their results are read from an explicit `World`.  Effects are
  recorded, in order, in a log of `Event`s.
* A Go `error` is a `GoError`; a run-time panic and `os.Exit` are outcomes of their
  own, never confused with a returned error.
-/

namespace Ska

/-- A Go string: a sequence of bytes, one `Char` per byte. -/
abbrev GoString := List Char

/-- A Go `error` value: its message and whether `os.IsNotExist` holds of it. -/
structure GoError where
  msg : String
  notExist : Bool
deriving DecidableEq, Repr

/-- The predicate `os.IsNotExist`. -/
def IsNotExist (e : GoError) : Bool := e.notExist

/-- What a Go call that may return an error, or panic, produces. -/
inductive Res (α : Type) where
  | ok (a : α)
  | err (e : GoError)
  | panic (msg : String)
deriving DecidableEq, Repr

/-- A value decoded from TOML, as stored in `map[string]interface{}`. -/
inductive Value where
  | str (s : GoString)
  | int (n : Int)
  | bool (b : Bool)
  | arr (xs : List Value)
  | table (kvs : List (GoString × Value))

/-- A non-nil `map[string]interface{}`: an association list with distinct keys. -/
abbrev Doc := List (GoString × Value)

/-- Map indexing `m[k]` with the comma-ok form: the value stored under `k`, if any. -/
def Doc.get : Doc → GoString → Option Value
  | [], _ => none
  | (k, v) :: m, key => if k = key then some v else Doc.get m key

/-- Map assignment `m[k] = v` on a non-nil map. -/
def Doc.set : Doc → GoString → Value → Doc
  | [], key, val => [(key, val)]
  | (k, v) :: m, key, val => if k = key then (k, val) :: m else (k, v) :: Doc.set m key val

/-! ## Package `strings` -/

namespace strings

/-- Go `strings.HasPrefix`, flipped into a test on the text. -/
def startsWith (s p : GoString) : Bool := p.isPrefixOf s

/-- Go `strings.Contains(s, substr)`: `substr` occurs at some offset of `s`. -/
def Contains : GoString → GoString → Bool
  | [], substr => substr.isEmpty
  | c :: s, substr => startsWith (c :: s) substr || Contains s substr

/-- Scan of `strings.Replace(s, old, new, -1)` for a non-empty `old`: at each offset,
leftmost first, an occurrence of `old` is replaced by `new` and the scan resumes
after it.  `skip` counts the bytes of a matched occurrence still to be passed. -/
def replaceScan (old new : GoString) : Nat → GoString → GoString
  | _, [] => []
  | k + 1, _ :: s => replaceScan old new k s
  | 0, c :: s =>
    if startsWith (c :: s) old then new ++ replaceScan old new (old.length - 1) s
    else c :: replaceScan old new 0 s

/-- Go `strings.Replace(s, old, new, -1)`.  When `old == new` the input is returned
as it is.  An empty `old` with a non-empty `new` (insertion at every rune boundary)
does not occur in this program, where `new` is always empty; it is rendered here as
insertion at every byte boundary. -/
def Replace (s old new : GoString) : GoString :=
  if old = new then s
  else if old = [] then new ++ s.flatMap (fun c => c :: new)
  else replaceScan old new 0 s

end strings

/-! ## Packages `path` and `path/filepath` (Unix: the separator is `/`) -/

namespace path

/-- The elements of a path between its slashes: `"a//b"` gives `a`, the empty
element and `b`. -/
def elements : GoString → List GoString
  | [] => [[]]
  | c :: s =>
    if c = '/' then [] :: elements s
    else
      match elements s with
      | [] => [[c]]
      | e :: es => (c :: e) :: es

/-- One element consumed by `path.Clean`; `st` is the output so far, last element
first.  Empty elements and `.` are dropped; `..` removes the last real element,
is dropped at the root, and is kept in front of a relative path. -/
def cleanStep (rooted : Bool) (st : List GoString) (e : GoString) : List GoString :=
  if e = [] ∨ e = ".".toList then st
  else if e = "..".toList then
    match st with
    | [] => if rooted then [] else [e]
    | top :: rest => if top = "..".toList then e :: st else rest
  else e :: st

/-- The text of a cleaned path from its elements, last element first. -/
def render (rooted : Bool) (st : List GoString) : GoString :=
  let body := "/".toList.intercalate st.reverse
  let out := if rooted then '/' :: body else body
  if out = [] then ".".toList else out

/-- Go `path.Clean`: the shortest path equivalent to `p` by lexical processing. -/
def Clean (p : GoString) : GoString :=
  if p = [] then ".".toList
  else
    let rooted := p.head? = some '/'
    render rooted ((elements p).foldl (cleanStep rooted) [])

/-- Go `path.Join`: the elements from the first non-empty one on, joined by slashes
and cleaned; the empty string when all are empty. -/
def Join (elem : List GoString) : GoString :=
  match elem.dropWhile (fun e => e.isEmpty) with
  | [] => []
  | es => Clean ("/".toList.intercalate es)

end path

namespace filepath

/-- Go `filepath.Base`: the last element of the path, trailing slashes removed. -/
def Base (p : GoString) : GoString :=
  if p = [] then ".".toList
  else
    let r := p.reverse.dropWhile (fun c => c = '/')
    if r = [] then "/".toList else (r.takeWhile (fun c => c ≠ '/')).reverse

/-- Go `filepath.Dir`: all but the last element of the path, cleaned. -/
def Dir (p : GoString) : GoString :=
  path.Clean (p.reverse.dropWhile (fun c => c ≠ '/')).reverse

end filepath

/-! ## Package `html/template`

`main.go` imports `html/template`, so every action of a path or content template
is escaped for its HTML context.  The library is a collaborator: the functions of
`main.go` take it as a `Template` argument.  `htmltemplate.Exec` below renders the
fragment of the language needed to evaluate paths such as
`{{.name}}-config.yaml.ska`: literal text without `<` (the context stays HTML
text) and actions that are a chain of field names.
-/

/-- The template library as `main.go` uses it: `Parse` of a text followed by
`Execute` against the document, with the error of whichever fails first
(`main.go` returns either in the same way). -/
abbrev Template := GoString → Doc → Except GoError GoString

namespace htmltemplate

/-- The table `htmlReplacementTable` of `html/template`: the bytes replaced in HTML
text context.  NUL becomes U+FFFD (three bytes in UTF-8). -/
def htmlReplacement (c : Char) : Option GoString :=
  if c = Char.ofNat 0 then some [Char.ofNat 0xEF, Char.ofNat 0xBF, Char.ofNat 0xBD]
  else if c = Char.ofNat 34 then some "&#34;".toList
  else if c = '&' then some "&amp;".toList
  else if c = Char.ofNat 39 then some "&#39;".toList
  else if c = '+' then some "&#43;".toList
  else if c = '<' then some "&lt;".toList
  else if c = '>' then some "&gt;".toList
  else none

/-- The escaper `htmlEscaper` applied to a plain string: every byte of the table is
replaced by its entity, every other byte is kept. -/
def htmlEscape (s : GoString) : GoString :=
  s.flatMap (fun c => (htmlReplacement c).getD [c])

/-- A parsed template of the fragment: literal text and field chains `.a.b`. -/
inductive Node where
  | text (s : GoString)
  | field (chain : List GoString)
deriving DecidableEq, Repr

/-- Where the lexer is: in literal text (collected in reverse), after one `{` in
text, after the opening `{{`, inside a field name, after the chain, or after the
first `}` of the closing delimiter. -/
inductive LexState where
  | text (acc : GoString)
  | brace (acc : GoString)
  | opened
  | ident (chain : List GoString) (cur : GoString)
  | chainEnd (chain : List GoString)
  | closing (chain : List GoString)

/-- A byte that may occur in a field name (ASCII letters, digits, underscore). -/
def isAlphaNumeric (c : Char) : Bool := c = '_' || c.isAlphanum

/-- White space inside an action. -/
def isSpace (c : Char) : Bool := c = ' ' || c = '\t' || c = '\r' || c = '\n'

/-- A text node for the collected literal, if there is any. -/
def flushText (acc : GoString) (ns : List Node) : List Node :=
  if acc = [] then ns else Node.text acc.reverse :: ns

/-- The lexer and parser of the fragment; `none` when the text leaves the fragment
(any other action, a trim marker, `<` in literal text, an unclosed action, a dot
followed by a digit, which Go lexes as a number). -/
def parse : LexState → List Node → GoString → Option (List Node)
  | .text acc, ns, [] => some (flushText acc ns).reverse
  | .brace acc, ns, [] => some (flushText (Char.ofNat 123 :: acc) ns).reverse
  | _, _, [] => none
  | .text acc, ns, c :: s =>
    if c = Char.ofNat 123 then parse (.brace acc) ns s
    else if c = '<' then none
    else parse (.text (c :: acc)) ns s
  | .brace acc, ns, c :: s =>
    if c = Char.ofNat 123 then parse .opened (flushText acc ns) s
    else if c = '<' then none
    else parse (.text (c :: Char.ofNat 123 :: acc)) ns s
  | .opened, ns, c :: s =>
    if isSpace c then parse .opened ns s
    else if c = '.' then parse (.ident [] []) ns s
    else none
  | .ident chain cur, ns, c :: s =>
    if isAlphaNumeric c then
      if cur = [] ∧ c.isDigit then none else parse (.ident chain (c :: cur)) ns s
    else if cur = [] then none
    else if c = '.' then parse (.ident (cur.reverse :: chain) []) ns s
    else if isSpace c then parse (.chainEnd (cur.reverse :: chain)) ns s
    else if c = Char.ofNat 125 then parse (.closing (cur.reverse :: chain)) ns s
    else none
  | .chainEnd chain, ns, c :: s =>
    if isSpace c then parse (.chainEnd chain) ns s
    else if c = Char.ofNat 125 then parse (.closing chain) ns s
    else none
  | .closing chain, ns, c :: s =>
    if c = Char.ofNat 125 then parse (.text []) (Node.field chain.reverse :: ns) s
    else none

/-- Field access along a chain: each name indexes a table. -/
def evalChain : Value → List GoString → Option Value
  | v, [] => some v
  | .table kvs, f :: fs =>
    match Doc.get kvs f with
    | some v => evalChain v fs
    | none => none
  | _, _ :: _ => none

/-- The printed form of a scalar (`fmt.Sprint`). -/
def printValue : Value → Option GoString
  | .str s => some s
  | .int n => some (toString n).toList
  | .bool b => some (if b then "true".toList else "false".toList)
  | _ => none

/-- Execution of the parsed fragment: text is copied, an action prints the value
of its chain, escaped for HTML text.  `none` when a key is missing or the value is
not a scalar (outside the fragment). -/
def execNodes (vals : Doc) : List Node → Option GoString
  | [] => some []
  | .text s :: ns => (execNodes vals ns).map (fun r => s ++ r)
  | .field chain :: ns =>
    match evalChain (.table vals) chain with
    | none => none
    | some v =>
      match printValue v with
      | none => none
      | some p => (execNodes vals ns).map (fun r => htmlEscape p ++ r)

/-- Parse and execution of a template of the fragment, `none` outside it. -/
def fragment (text : GoString) (vals : Doc) : Option GoString :=
  match parse (.text []) [] text with
  | none => none
  | some ns => execNodes vals ns

/-- The template library on the fragment.  A text outside the fragment is not
modelled; it is reported as an error with a message saying so. -/
def Exec : Template := fun text vals =>
  match fragment text vals with
  | some r => .ok r
  | none => .error ⟨"template outside the modelled fragment", false⟩

end htmltemplate

/-! ## `prepareFilepath` (main.go, lines 154-177) -/

/-- The opening marker of a template action. -/
def openMarker : GoString := "\x7b\x7b".toList

/-- The marker suffix of template files. -/
def skaSuffix : GoString := ".ska".toList

/-- Source `prepareFilepath`: when the path contains the opening marker it is
rendered as a template against `vals`; then, if the last four bytes are `.ska`,
they are removed.  The slice expression `path[len(path)-4:]` panics when the path
has fewer than four bytes. -/
def prepareFilepath (tmpl : Template) (path : GoString) (vals : Doc) : Res GoString :=
  let rendered : Except GoError GoString :=
    if strings.Contains path openMarker then tmpl path vals else .ok path
  match rendered with
  | .error e => .err e
  | .ok path =>
    if path.length < 4 then .panic "slice bounds out of range"
    else if path.drop (path.length - 4) = skaSuffix then .ok (path.take (path.length - 4))
    else .ok path

/-! ## The world and its log -/

/-- An effect of the program on its environment, in the order performed. -/
inductive Event where
  | link (oldname newname : GoString)
  | invokeEditor (ed p : GoString)
  | decodeFile (p : GoString)
  | scan
  | removeAll (p : GoString)
  | stdout (s : GoString)
  | stderr (s : String)
  | mkdirAll (p : GoString)
  | writeFile (p data : GoString) (result : Option GoError)
deriving DecidableEq, Repr

/-- One call of the function given to `filepath.Walk`: the path, whether
`info.IsDir()` holds, and the error of reading that entry, if any. -/
structure Visit where
  mpath : GoString
  isDir : Bool
  err : Option GoError
deriving DecidableEq, Repr

/-- The collaborators of the program.  A result that may depend on what happened
before is indexed by its occurrence: the `n`-th visit of the walk, the `n`-th turn
of the edit loop. -/
structure World where
  /-- Package html/template (with the sprig functions). -/
  tmpl : Template
  /-- The entries `filepath.Walk` presents for a root, in order. -/
  visits : GoString → List Visit
  /-- Reading a template file during the `n`-th visit. -/
  readFile : Nat → GoString → Except GoError GoString
  /-- Function `os.MkdirAll` during the `n`-th visit. -/
  mkdirAll : Nat → GoString → Option GoError
  /-- Function `ioutil.WriteFile` during the `n`-th visit. -/
  writeFile : Nat → GoString → GoString → Option GoError
  /-- Function `os.TempDir`. -/
  tempDir : GoString
  /-- Function `filepath.Abs`. -/
  abs : GoString → Except GoError GoString
  /-- Function `os.Link`. -/
  link : GoString → GoString → Option GoError
  /-- Running the editor in the `n`-th turn of the loop. -/
  runEditor : Nat → GoString → GoString → Option GoError
  /-- Function `toml.DecodeFile` in the `n`-th turn of the loop; a successful
  decode fills a non-nil map. -/
  decodeFile : Nat → GoString → Except GoError Doc
  /-- Function `os.RemoveAll`. -/
  removeAll : GoString → Option GoError

/-- A returned `error` as a result without value. -/
def Res.ofError : Option GoError → Res Unit
  | none => .ok ()
  | some e => .err e

/-- The successful file writes of a log: destination and content, in order. -/
def writes : List Event → List (GoString × GoString)
  | [] => []
  | .writeFile p data none :: es => (p, data) :: writes es
  | _ :: es => writes es

/-! ## `gen`, `mkdirr`, `walk` (main.go, lines 110-152, 179-182) -/

/-- Source `gen`: the template file `inp` is parsed (`ParseFiles`), executed
against `vals` into a buffer, and the buffer is written to `out`.  Nothing is
written when parsing or execution fails. -/
def gen (w : World) (n : Nat) (inp out : GoString) (vals : Doc) : Res Unit × List Event :=
  match w.readFile n inp with
  | .error e => (.err e, [])
  | .ok text =>
    match w.tmpl text vals with
    | .error e => (.err e, [])
    | .ok buf =>
      let r := w.writeFile n out buf
      (Res.ofError r, [.writeFile out buf r])

/-- Source `mkdirr`: `os.MkdirAll(path, 0755)`. -/
def mkdirr (w : World) (n : Nat) (p : GoString) : Option GoError × List Event :=
  (w.mkdirAll n p, [.mkdirAll p])

/-- The destination `saveto` of `walk` (lines 126-127): every `./` is removed from
`template`, every occurrence of the result is removed from `file`, and what is
left is joined to `out` and `dest`. -/
def saveto (out dest template file : GoString) : GoString :=
  let prefixStripped := strings.Replace template "./".toList []
  path.Join [out, dest, strings.Replace file prefixStripped []]

/-- The line printed by `fmt.Println(template, " | ", file, " | ", in, " | ",
prefixStripped)`: the operands separated by single spaces. -/
def debugLine (template file inp : GoString) : GoString :=
  let bar := "  |  ".toList
  template ++ bar ++ file ++ bar ++ inp ++ bar ++ strings.Replace template "./".toList []
    ++ "\n".toList

/-- The function `walk` gives to `filepath.Walk` (lines 112-136), at the `n`-th
visit.  `f` is the generator. -/
def walkFn (w : World) (inp out template dest : GoString) (vals : Doc)
    (f : Nat → GoString → GoString → Doc → Res Unit × List Event)
    (n : Nat) (v : Visit) : Res Unit × List Event :=
  match v.err with
  | some e => (.err e, [])
  | none =>
    if v.isDir then (.ok (), [])
    else
      match prepareFilepath w.tmpl v.mpath vals with
      | .err e => (.err e, [])
      | .panic m => (.panic m, [])
      | .ok file =>
        let dst := saveto out dest template file
        let printed := [Event.stdout (debugLine template file inp), .stdout (dst ++ "\n".toList)]
        match mkdirr w n (filepath.Dir dst) with
        | (some e, ev) => (.err e, printed ++ ev)
        | (none, ev) =>
          let r := f n v.mpath dst vals
          (r.1, printed ++ ev ++ r.2)

/-- Function `filepath.Walk` over the entries it presents: the function is called on
each in turn and the walk stops at the first call that does not return nil.  (No
collaborator of this program returns the sentinel `filepath.SkipDir`.) -/
def filepathWalk (fn : Nat → Visit → Res Unit × List Event) :
    Nat → List Visit → Res Unit × List Event
  | _, [] => (.ok (), [])
  | n, v :: vs =>
    match fn n v with
    | (.ok _, ev) =>
      let r := filepathWalk fn (n + 1) vs
      (r.1, ev ++ r.2)
    | (r, ev) => (r, ev)

/-- Source `walk`. -/
def walk (w : World) (inp out template dest : GoString) (vals : Doc)
    (f : Nat → GoString → GoString → Doc → Res Unit × List Event) : Res Unit × List Event :=
  filepathWalk (walkFn w inp out template dest vals f) 0 (w.visits inp)

/-! ## `main` (lines 21-90) and its helpers -/

/-- How a run of the program stands: the closure returned, the process exited
with a status, the program panicked, or it is still inside the edit loop (after
the turns looked at). -/
inductive Outcome where
  | returned
  | exit (code : Int)
  | panic (msg : String)
  | running
deriving DecidableEq, Repr

/-- The command-line flags. -/
structure Flags where
  ska : GoString
  out : GoString
  editor : GoString
  isInvokeEditor : Bool
  dest : GoString
deriving DecidableEq, Repr

/-- Source `tplPaths`: the path of `values.toml` and of the `templates` directory. -/
def tplPaths (ska tpl : GoString) : GoString × GoString :=
  let tplf := ska ++ "/".toList ++ tpl
  (tplf ++ "/values.toml".toList, tplf ++ "/templates".toList)

/-- Source `vals`: the decoded file, or the error of the decoder. -/
def vals (w : World) (n : Nat) (p : GoString) : Except GoError Doc × List Event :=
  (w.decodeFile n p, [.decodeFile p])

/-- Source `tempfile`: a hard link to `p` named `temp-<base>` in the temporary
directory. -/
def tempfile (w : World) (p : GoString) : Except GoError GoString × List Event :=
  let tmp := w.tempDir ++ "/temp-".toList ++ filepath.Base p
  match w.abs p with
  | .error e => (.error e, [])
  | .ok pabs =>
    match w.link pabs tmp with
    | some e => (.error e, [.link pabs tmp])
    | none => (.ok tmp, [.link pabs tmp])

/-- Source `invokeEditor`: the editor run on `p`; its failure is the error. -/
def invokeEditor (w : World) (n : Nat) (ed p : GoString) : Option GoError × List Event :=
  (w.runEditor n ed p, [.invokeEditor ed p])

/-- Source `must` on a non-nil error, called from `line`: the message on the error
stream; the caller exits with status -1. -/
def must (line : Nat) (e : GoError) : List Event :=
  [.stderr ("main.go:" ++ toString line ++ ": " ++ e.msg ++ "\n")]

/-- How the edit loop stands after the turns looked at. -/
inductive LoopResult where
  | decoded (vv : Doc)
  | exited
  | running

/-- The loop of lines 43-56, from turn `n` on, for at most `fuel` turns: the
editor is run when enabled (its failure exits through `must`), the file is
decoded, and on a decode error the error is printed and a line is read from
standard input before the next turn. -/
def editLoop (w : World) (fl : Flags) (tmp : GoString) :
    Nat → Nat → LoopResult × List Event
  | 0, _ => (.running, [])
  | fuel + 1, n =>
    let edited : Option GoError × List Event :=
      if fl.isInvokeEditor then invokeEditor w n fl.editor tmp else (none, [])
    match edited with
    | (some e, ev) => (.exited, ev ++ must 45 e)
    | (none, ev) =>
      match vals w n tmp with
      | (.ok vv, ev1) => (.decoded vv, ev ++ ev1)
      | (.error e, ev1) =>
        let r := editLoop w fl tmp fuel (n + 1)
        (r.1, ev ++ ev1
          ++ [.stdout ("Error while parsing file: ".toList ++ e.msg.toList ++ "\n".toList), .scan]
          ++ r.2)

/-- Lines 67-72: the two injected keys are assigned into `vv` (a panic when the
map is nil), the destination name defaults to the template name, and `walk` runs
under `must`. -/
def generate (w : World) (fl : Flags) (arg tp : GoString) : Option Doc → Outcome × List Event
  | none => (.panic "assignment to entry in nil map", [])
  | some vv =>
    let vv := vv.set "template".toList (.str arg)
    let dest := if fl.dest = [] then arg else fl.dest
    let vv := vv.set "dest".toList (.str dest)
    match walk w tp fl.out fl.ska dest vv (gen w) with
    | (.ok _, ev) => (.returned, ev)
    | (.err e, ev) => (.exit (-1), ev ++ must 72 e)
    | (.panic m, ev) => (.panic m, ev)

/-- The closure `Run` of `main` (lines 32-73) on the template name `arg`, looking
at most `fuel` turns into the edit loop. -/
def Run (w : World) (fl : Flags) (arg : GoString) (fuel : Nat) : Outcome × List Event :=
  let vptp := tplPaths fl.ska arg
  match tempfile w vptp.1 with
  | (.ok tmp, ev) =>
    match editLoop w fl tmp fuel 0 with
    | (.running, ev1) => (.running, ev ++ ev1)
    | (.exited, ev1) => (.exit (-1), ev ++ ev1)
    | (.decoded vv, ev1) =>
      let removed : List Event :=
        match w.removeAll tmp with
        | some e => [.removeAll tmp, .stderr e.msg]
        | none => [.removeAll tmp]
      let r := generate w fl arg vptp.2 (some vv)
      (r.1, ev ++ ev1 ++ removed ++ r.2)
  | (.error e, ev) =>
    if IsNotExist e then
      let r := generate w fl arg vptp.2 none
      (r.1, ev ++ r.2)
    else (.exit (-1), ev ++ must 64 e)

/-! ## Vocabulary of the properties -/

/-- The part of the destination that `walk` joins to `out` and `dest` (the third
argument of `path.Join` at line 127), for the resolved path `file`. -/
def relativePart (template file : GoString) : GoString :=
  strings.Replace file (strings.Replace template "./".toList []) []

/-- The element `..` of a path. -/
def dotdot : GoString := "..".toList

/-- Whether a path starts at the root. -/
def path.isRooted (p : GoString) : Bool := p.head? = some '/'

/-- The elements of a path that name something: all but the empty ones and `.`. -/
def path.names (p : GoString) : List GoString :=
  (path.elements p).filter (fun e => decide (e ≠ [] ∧ e ≠ ".".toList))

/-- Path `p` has the directory `dir` as a path prefix and stays below it: both are
rooted or both relative, the names of `dir` begin the names of `p`, and no `..`
follows them. -/
def inside (dir p : GoString) : Prop :=
  path.isRooted p = path.isRooted dir ∧ path.names dir <+: path.names p ∧
    dotdot ∉ (path.names p).drop (path.names dir).length

instance (dir p : GoString) : Decidable (inside dir p) := by
  unfold inside
  infer_instance

/-- The `n`-th visit succeeds: the entry is read without error and, when it is a
file, its path resolves, its directory is created and the generator returns nil. -/
def VisitSucceeds (w : World) (out template dest : GoString) (vals : Doc) (n : Nat)
    (v : Visit) : Prop :=
  v.err = none ∧
    (v.isDir = true ∨
      ∃ file, prepareFilepath w.tmpl v.mpath vals = .ok file ∧
        w.mkdirAll n (filepath.Dir (saveto out dest template file)) = none ∧
        (gen w n v.mpath (saveto out dest template file) vals).1 = .ok ())

/-- The `n`-th visit is of a file and fails with the error `e`: in path resolution,
or in directory creation, or in the generator. -/
def VisitFails (w : World) (out template dest : GoString) (vals : Doc) (n : Nat)
    (v : Visit) (e : GoError) : Prop :=
  v.err = none ∧ v.isDir = false ∧
    (prepareFilepath w.tmpl v.mpath vals = .err e ∨
      ∃ file, prepareFilepath w.tmpl v.mpath vals = .ok file ∧
        (w.mkdirAll n (filepath.Dir (saveto out dest template file)) = some e ∨
          (w.mkdirAll n (filepath.Dir (saveto out dest template file)) = none ∧
            (gen w n v.mpath (saveto out dest template file) vals).1 = .err e)))

/-- The content rendered from the template file `inp` in the `n`-th visit. -/
def rendering (w : World) (vals : Doc) (n : Nat) (inp : GoString) : Option GoString :=
  match w.readFile n inp with
  | .error _ => none
  | .ok text =>
    match w.tmpl text vals with
    | .error _ => none
    | .ok buf => some buf

/-- The output due for the `n`-th visit: for a file, its destination and its
rendered content. -/
def expectedOutput (w : World) (out template dest : GoString) (vals : Doc) (n : Nat)
    (v : Visit) : Option (GoString × GoString) :=
  if v.isDir then none
  else
    match prepareFilepath w.tmpl v.mpath vals with
    | .ok file => (rendering w vals n v.mpath).map (fun buf => (saveto out dest template file, buf))
    | _ => none

/-- The outputs due for the visits `vs`, the first of which is the `n`-th. -/
def expectedOutputs (w : World) (out template dest : GoString) (vals : Doc) :
    Nat → List Visit → List (GoString × GoString)
  | _, [] => []
  | n, v :: vs =>
    (expectedOutput w out template dest vals n v).toList
      ++ expectedOutputs w out template dest vals (n + 1) vs

/-- The event is a run of the editor. -/
def Event.isEditorRun : Event → Bool
  | .invokeEditor _ _ => true
  | _ => false

/-- The event is a decode of the values file. -/
def Event.isDecode : Event → Bool
  | .decodeFile _ => true
  | _ => false

/-- The event is a wait for a line on standard input. -/
def Event.isScan : Event → Bool
  | .scan => true
  | _ => false

/-- The event removes the path `p`. -/
def Event.removes (p : GoString) : Event → Bool
  | .removeAll q => decide (q = p)
  | _ => false

/-- The event belongs to generation: a directory created or a file written. -/
def Event.isOutput : Event → Bool
  | .mkdirAll _ => true
  | .writeFile _ _ _ => true
  | _ => false

/-- The elements kept in the output of `path.Clean`: no slash inside, not empty,
not `.`. -/
def ValidStack (st : List GoString) : Prop :=
  ∀ e ∈ st, e ≠ [] ∧ e ≠ ".".toList ∧ '/' ∉ e

/-! ## Example worlds -/

/-- A world in which every collaborator succeeds.  Under any root the tree is the
directory `a` with the file `b.txt`, whose content is `hello`; the values file
decodes to the empty document. -/
def calm : World where
  tmpl := htmltemplate.Exec
  visits := fun root =>
    [⟨root, true, none⟩, ⟨root ++ "/a".toList, true, none⟩,
      ⟨root ++ "/a/b.txt".toList, false, none⟩]
  readFile := fun _ _ => .ok "hello".toList
  mkdirAll := fun _ _ => none
  writeFile := fun _ _ _ => none
  tempDir := "/tmp".toList
  abs := fun p => .ok p
  link := fun _ _ => none
  runEditor := fun _ _ _ => none
  decodeFile := fun _ _ => .ok []
  removeAll := fun _ => none

/-- The flags `-t /s -o o -d out1`, editor `vi`, not invoked. -/
def flags : Flags := ⟨"/s".toList, "o".toList, "vi".toList, false, "out1".toList⟩

/-- The calm world with three template files under any root, the second of which
holds an unclosed action and fails to parse. -/
def brokenTemplate : World :=
  { calm with
    visits := fun root =>
      [⟨root, true, none⟩, ⟨root ++ "/a.txt".toList, false, none⟩,
        ⟨root ++ "/bad.txt".toList, false, none⟩, ⟨root ++ "/c.txt".toList, false, none⟩]
    readFile := fun n _ => .ok (if n = 2 then "\x7b\x7b".toList else "hello".toList)
    tmpl := fun text vals =>
      if text = "\x7b\x7b".toList then .error ⟨"template: bad.txt:1: unclosed action", false⟩
      else htmltemplate.Exec text vals }

/-- The calm world whose tree holds, under any root, the file `f` below five
nested directories named `.x.`. -/
def dottedDirs : World :=
  { calm with
    visits := fun root =>
      [⟨root, true, none⟩, ⟨root ++ "/.x.".toList, true, none⟩,
        ⟨root ++ "/.x./.x.".toList, true, none⟩, ⟨root ++ "/.x./.x./.x.".toList, true, none⟩,
        ⟨root ++ "/.x./.x./.x./.x.".toList, true, none⟩,
        ⟨root ++ "/.x./.x./.x./.x./.x.".toList, true, none⟩,
        ⟨root ++ "/.x./.x./.x./.x./.x./f".toList, false, none⟩] }

/-- The calm world whose tree holds, under any root, the file `f` in a directory
named by the template `{{.up}}`. -/
def templatedDir : World :=
  { calm with
    visits := fun root =>
      [⟨root, true, none⟩, ⟨root ++ "/\x7b\x7b.up\x7d\x7d".toList, true, none⟩,
        ⟨root ++ "/\x7b\x7b.up\x7d\x7d/f".toList, false, none⟩] }

/-- The tree of `dottedDirs` with, next to the nested directories, the directory
`n` holding the file `b.md`. -/
def mixedTree : World :=
  { calm with
    visits := fun root =>
      dottedDirs.visits root
        ++ [⟨root ++ "/n".toList, true, none⟩, ⟨root ++ "/n/b.md".toList, false, none⟩] }

/-- The calm world as `filepath.Walk` shows it for the root `/s//templates` (the
template name is empty): the root as given, its entries with cleaned paths. -/
def emptyName : World :=
  { calm with
    visits := fun root =>
      [⟨root, true, none⟩, ⟨"/s/templates/a".toList, true, none⟩,
        ⟨"/s/templates/a/b.txt".toList, false, none⟩] }

/-- The flags `-t /s -o ""` with no destination name and no editor. -/
def flagsEmpty : Flags := ⟨"/s".toList, [], "vi".toList, false, []⟩

/-- The flags of `flags` with `--invoke-editor`. -/
def flagsEdit : Flags := { flags with isInvokeEditor := true }

/-- The calm world without a values file: the hard link fails with a not-exist
error. -/
def missingValues : World :=
  { calm with link := fun _ _ => some ⟨"link: no such file or directory", true⟩ }

/-- The calm world in which the editor cannot be started. -/
def noEditor : World :=
  { calm with runEditor := fun _ _ _ => some ⟨"exec: no command", false⟩ }

/-- The calm world whose values file never decodes. -/
def badValues : World :=
  { calm with decodeFile := fun _ _ => .error ⟨"toml: expected key", false⟩ }

/-- The calm world whose values file fails to decode in the first turn and decodes
to `name = "db"` from the second turn on. -/
def fixedOnRetry : World :=
  { calm with
    decodeFile := fun n _ =>
      if n = 0 then .error ⟨"toml: expected key", false⟩
      else .ok [("name".toList, .str "db".toList)] }

/-- The world `fixedOnRetry` whose template file reads `{{.name}} for {{.dest}}`. -/
def fixedOnRetryNamed : World :=
  { fixedOnRetry with
    readFile := fun _ _ => .ok "\x7b\x7b.name\x7d\x7d for \x7b\x7b.dest\x7d\x7d".toList }

/-! ## Properties of `prepareFilepath` -/

/-- A text without the opening marker stays without it when a text is appended that
has no marker and does not start with a brace. -/
theorem contains_marker_append (t : GoString) (ht : strings.Contains t openMarker = false)
    (hhead : t.head? ≠ some (Char.ofNat 123)) :
    ∀ q : GoString, strings.Contains q openMarker = false →
      strings.Contains (q ++ t) openMarker = false
  | [], _ => by simpa using ht
  | c :: q, h => by
    simp only [strings.Contains, Bool.or_eq_false_iff] at h
    have ih := contains_marker_append t ht hhead q h.2
    simp only [List.cons_append, strings.Contains, Bool.or_eq_false_iff]
    refine ⟨?_, ih⟩
    have h1 := h.1
    simp only [strings.startsWith, openMarker] at h1 ⊢
    cases q with
    | nil =>
      cases t with
      | nil => simpa using h1
      | cons d t =>
        have hd : d ≠ Char.ofNat 123 := by simpa using hhead
        by_cases hc : c = Char.ofNat 123
        · subst hc
          simp [List.isPrefixOf]
          intro hd2
          exact absurd hd2.symm (by simpa using hd)
        · simp [List.isPrefixOf]
          intro hc2
          exact absurd hc2.symm (by simpa using hc)
    | cons d q =>
      simpa [List.isPrefixOf] using h1

/-- The last `s.length` bytes of `a ++ s` are `s`, the bytes before them are `a`. -/
theorem drop_take_suffix (a s : GoString) :
    (a ++ s).drop ((a ++ s).length - s.length) = s ∧
      (a ++ s).take ((a ++ s).length - s.length) = a := by
  have h : (a ++ s).length - s.length = a.length := by simp
  rw [h]
  exact ⟨List.drop_left a s, List.take_left a s⟩

/-- Path resolution of a path without marker that ends in a four-byte text `s`:
the suffix is removed exactly when it is `.ska`. -/
theorem prepareFilepath_suffix (tmpl : Template) (vals : Doc) (q s : GoString)
    (hs : s.length = 4) (h : strings.Contains (q ++ s) openMarker = false) :
    prepareFilepath tmpl (q ++ s) vals = if s = skaSuffix then .ok q else .ok (q ++ s) := by
  have hlen : ¬ (q ++ s).length < 4 := by simp [hs]
  have hdt := drop_take_suffix q s
  rw [hs] at hdt
  simp only [prepareFilepath, h, Bool.false_eq_true, if_false, hlen, hdt.1, hdt.2]

/-- C9. The marker suffix is stripped exactly once, and only in lower case: for
every `q` without the opening marker, `prepareFilepath` on `q` followed by `.ska`
returns `q` with no error (for `q = x.ska` this is `x.ska`: one suffix only), and
on `q` followed by `.SKA` it returns the path unchanged. -/
theorem prepareFilepath_strips_ska_once (tmpl : Template) (vals : Doc) (q : GoString)
    (hq : strings.Contains q openMarker = false) :
    prepareFilepath tmpl (q ++ ".ska".toList) vals = .ok q ∧
      prepareFilepath tmpl (q ++ ".SKA".toList) vals = .ok (q ++ ".SKA".toList) := by
  constructor
  · have h := contains_marker_append ".ska".toList (by decide) (by decide) q hq
    rw [prepareFilepath_suffix tmpl vals q ".ska".toList (by decide) h]
    simp [skaSuffix]
  · have h := contains_marker_append ".SKA".toList (by decide) (by decide) q hq
    rw [prepareFilepath_suffix tmpl vals q ".SKA".toList (by decide) h]
    simp [skaSuffix]

/-- C9 at `q = x.ska`: `x.ska.ska` resolves to `x.ska`, and `x.ska.SKA` is unchanged. -/
theorem prepareFilepath_strips_ska_once_witness :
    strings.Contains "x.ska".toList openMarker = false ∧
      prepareFilepath htmltemplate.Exec ("x.ska".toList ++ ".ska".toList) [] = .ok "x.ska".toList ∧
      prepareFilepath htmltemplate.Exec ("x.ska".toList ++ ".SKA".toList) []
        = .ok ("x.ska".toList ++ ".SKA".toList) :=
  ⟨by decide, prepareFilepath_strips_ska_once htmltemplate.Exec [] "x.ska".toList (by decide)⟩

/-- A path that keeps the element `templates` has at least nine bytes. -/
theorem length_of_templates_infix (p : GoString) (h : "templates".toList <:+: p) :
    9 ≤ p.length := by
  have := h.length_le
  simpa using this

/-- C10 (amended). On a path of at least four bytes without the opening marker
that does not end in `.ska`, `prepareFilepath` returns the path unchanged and
reports no error; in particular on every such path that keeps the element
`templates`. -/
theorem prepareFilepath_plain_path (tmpl : Template) (vals : Doc) (p : GoString)
    (hm : strings.Contains p openMarker = false) (hs : ¬ skaSuffix <:+ p) :
    (4 ≤ p.length → prepareFilepath tmpl p vals = .ok p) ∧
      ("templates".toList <:+: p → prepareFilepath tmpl p vals = .ok p) := by
  have key : 4 ≤ p.length → prepareFilepath tmpl p vals = .ok p := by
    intro hlen
    have hne : p.drop (p.length - 4) ≠ skaSuffix := by
      intro heq
      exact hs (heq ▸ List.drop_suffix _ p)
    have hlt : ¬ p.length < 4 := by omega
    simp [prepareFilepath, hm, hlt, hne]
  refine ⟨key, fun h => key ?_⟩
  have := length_of_templates_infix p h
  omega

/-- C10 (amended) at the path `/s/myapp/templates/a/b.txt`: no marker, no `.ska`
suffix, the element `templates`; the path is returned unchanged. -/
theorem prepareFilepath_plain_path_witness :
    strings.Contains "/s/myapp/templates/a/b.txt".toList openMarker = false ∧
      ¬ skaSuffix <:+ "/s/myapp/templates/a/b.txt".toList ∧
      prepareFilepath htmltemplate.Exec "/s/myapp/templates/a/b.txt".toList []
        = .ok "/s/myapp/templates/a/b.txt".toList :=
  ⟨by decide, by decide,
    (prepareFilepath_plain_path htmltemplate.Exec [] "/s/myapp/templates/a/b.txt".toList
      (by decide) (by decide)).2 (by decide)⟩

/-- C10 (counterexample). The path `abc` has no marker and no `.ska` suffix, yet
`prepareFilepath` does not return it: with three bytes the slice expression of
line 172 panics. -/
theorem prepareFilepath_short_path_panics :
    strings.Contains "abc".toList openMarker = false ∧ ¬ skaSuffix <:+ "abc".toList ∧
      prepareFilepath htmltemplate.Exec "abc".toList [] = .panic "slice bounds out of range" ∧
      prepareFilepath htmltemplate.Exec "abc".toList [] ≠ .ok "abc".toList := by
  refine ⟨by decide, by decide, by decide, by decide⟩

/-- The path template of the example: `{{.name}}-config.yaml.ska`. -/
theorem parse_config_path :
    htmltemplate.parse (.text []) [] "\x7b\x7b.name\x7d\x7d-config.yaml.ska".toList
      = some [.field ["name".toList], .text "-config.yaml.ska".toList] := by
  decide

/-- Escaping leaves a text without bytes of the replacement table as it is. -/
theorem htmlEscape_plain :
    ∀ v : GoString, (∀ c ∈ v, htmltemplate.htmlReplacement c = none) →
      htmltemplate.htmlEscape v = v
  | [], _ => rfl
  | c :: v, h => by
    have ih := htmlEscape_plain v (fun d hd => h d (List.mem_cons_of_mem c hd))
    have hc := h c (List.mem_cons_self c v)
    simp only [htmltemplate.htmlEscape, List.flatMap_cons, hc, Option.getD_none] at ih ⊢
    simp [ih]

/-- C2 (amended). For every string `v`, `prepareFilepath` on
`{{.name}}-config.yaml.ska` with a document that maps `name` to `v` returns, with
no error, the HTML-escaped form of `v` followed by `-config.yaml`; when `v` has
none of the bytes NUL, `"`, `&`, `'`, `+`, `<`, `>` this is `v` followed by
`-config.yaml`. -/
theorem prepareFilepath_config_path (vals : Doc) (v : GoString)
    (hv : vals.get "name".toList = some (.str v)) :
    prepareFilepath htmltemplate.Exec "\x7b\x7b.name\x7d\x7d-config.yaml.ska".toList vals
        = .ok (htmltemplate.htmlEscape v ++ "-config.yaml".toList) ∧
      ((∀ c ∈ v, htmltemplate.htmlReplacement c = none) →
        prepareFilepath htmltemplate.Exec "\x7b\x7b.name\x7d\x7d-config.yaml.ska".toList vals
          = .ok (v ++ "-config.yaml".toList)) := by
  have hrun : htmltemplate.Exec "\x7b\x7b.name\x7d\x7d-config.yaml.ska".toList vals
      = .ok ((htmltemplate.htmlEscape v ++ "-config.yaml".toList) ++ ".ska".toList) := by
    simp only [htmltemplate.Exec, htmltemplate.fragment, parse_config_path,
      htmltemplate.execNodes, htmltemplate.evalChain, hv, htmltemplate.printValue,
      Option.map_some']
    simp
  have hmark : strings.Contains "\x7b\x7b.name\x7d\x7d-config.yaml.ska".toList openMarker = true := by
    decide
  have hdt := drop_take_suffix (htmltemplate.htmlEscape v ++ "-config.yaml".toList) ".ska".toList
  have h4 : (".ska".toList : GoString).length = 4 := by decide
  rw [h4] at hdt
  have hlen : ¬ ((htmltemplate.htmlEscape v ++ "-config.yaml".toList) ++ ".ska".toList).length < 4 := by
    simp
  have main : prepareFilepath htmltemplate.Exec "\x7b\x7b.name\x7d\x7d-config.yaml.ska".toList vals
        = .ok (htmltemplate.htmlEscape v ++ "-config.yaml".toList) := by
    simp only [prepareFilepath, hmark, if_true, hrun, hlen, if_false, hdt.1, hdt.2]
    simp [skaSuffix]
  refine ⟨main, fun hplain => ?_⟩
  rw [main, htmlEscape_plain v hplain]

/-- C2 (amended) at `v = db`: the path resolves to `db-config.yaml`. -/
theorem prepareFilepath_config_path_witness :
    prepareFilepath htmltemplate.Exec "\x7b\x7b.name\x7d\x7d-config.yaml.ska".toList
        [("name".toList, .str "db".toList)] = .ok "db-config.yaml".toList :=
  (prepareFilepath_config_path [("name".toList, .str "db".toList)] "db".toList rfl).2
    (by decide)

/-- C2 (counterexample). With `name` mapped to `a&b` the resolved path is
`a&amp;b-config.yaml`, not `a&b-config.yaml`: the value is HTML-escaped. -/
theorem config_path_value_is_escaped :
    prepareFilepath htmltemplate.Exec "\x7b\x7b.name\x7d\x7d-config.yaml.ska".toList
        [("name".toList, .str "a&b".toList)] = .ok "a&amp;b-config.yaml".toList ∧
      prepareFilepath htmltemplate.Exec "\x7b\x7b.name\x7d\x7d-config.yaml.ska".toList
        [("name".toList, .str "a&b".toList)] ≠ .ok ("a&b".toList ++ "-config.yaml".toList) := by
  constructor
  · decide
  · decide

/-! ## Properties of `walk` -/

theorem writes_append (a b : List Event) : writes (a ++ b) = writes a ++ writes b := by
  induction a with
  | nil => rfl
  | cons ev a ih =>
    cases ev with
    | writeFile p d r =>
      cases r with
      | none => simp [writes, ih]
      | some e => simp [writes, ih]
    | _ => simp [writes, ih]

/-- A generator call that returns nil has written its rendered content to `out`. -/
theorem gen_ok (w : World) (n : Nat) (inp out : GoString) (vals : Doc)
    (h : (gen w n inp out vals).1 = .ok ()) :
    ∃ buf, rendering w vals n inp = some buf ∧ writes (gen w n inp out vals).2 = [(out, buf)] := by
  cases hr : w.readFile n inp with
  | error e => simp [gen, hr] at h
  | ok text =>
    cases ht : w.tmpl text vals with
    | error e => simp [gen, hr, ht] at h
    | ok buf =>
      cases hw : w.writeFile n out buf with
      | none => exact ⟨buf, by simp [rendering, hr, ht], by simp [gen, hr, ht, hw, writes]⟩
      | some e => simp [gen, hr, ht, hw, Res.ofError] at h

/-- A generator call that returns an error has written nothing. -/
theorem gen_err (w : World) (n : Nat) (inp out : GoString) (vals : Doc) (e : GoError)
    (h : (gen w n inp out vals).1 = .err e) : writes (gen w n inp out vals).2 = [] := by
  cases hr : w.readFile n inp with
  | error e1 => simp [gen, hr, writes]
  | ok text =>
    cases ht : w.tmpl text vals with
    | error e1 => simp [gen, hr, ht, writes]
    | ok buf =>
      cases hw : w.writeFile n out buf with
      | none => simp [gen, hr, ht, hw, Res.ofError] at h
      | some e1 => simp [gen, hr, ht, hw, writes]

/-- A visit that succeeds returns nil and writes exactly the output due for it. -/
theorem walkFn_succeeds (w : World) (inp out template dest : GoString) (vals : Doc) (n : Nat)
    (v : Visit) (h : VisitSucceeds w out template dest vals n v) :
    (walkFn w inp out template dest vals (gen w) n v).1 = .ok () ∧
      writes (walkFn w inp out template dest vals (gen w) n v).2
        = (expectedOutput w out template dest vals n v).toList ∧
      (expectedOutput w out template dest vals n v).toList.length
        = if v.isDir then 0 else 1 := by
  obtain ⟨herr, hcase⟩ := h
  by_cases hd : v.isDir = true
  · simp [walkFn, herr, hd, expectedOutput, writes]
  · have hd2 : v.isDir = false := by simpa using hd
    rcases hcase with hdir | ⟨file, hp, hm, hg⟩
    · exact absurd hdir hd
    · obtain ⟨buf, hbuf, hwr⟩ := gen_ok w n v.mpath _ vals hg
      simp [walkFn, herr, hd2, hp, mkdirr, hm, hg, expectedOutput, hbuf, writes_append, writes, hwr]

/-- A visit that fails returns its error and writes nothing. -/
theorem walkFn_fails (w : World) (inp out template dest : GoString) (vals : Doc) (n : Nat)
    (v : Visit) (e : GoError) (h : VisitFails w out template dest vals n v e) :
    (walkFn w inp out template dest vals (gen w) n v).1 = .err e ∧
      writes (walkFn w inp out template dest vals (gen w) n v).2 = [] := by
  obtain ⟨herr, hd, hcase⟩ := h
  rcases hcase with hp | ⟨file, hp, hm | ⟨hm, hg⟩⟩
  · simp [walkFn, herr, hd, hp, writes]
  · simp [walkFn, herr, hd, hp, mkdirr, hm, writes_append, writes]
  · have hwr := gen_err w n v.mpath _ vals e hg
    simp [walkFn, herr, hd, hp, mkdirr, hm, hg, writes_append, writes, hwr]

/-- The walk over visits that succeed, followed by one that fails. -/
theorem filepathWalk_abort (w : World) (inp out template dest : GoString) (vals : Doc)
    (v : Visit) (post : List Visit) (e : GoError) :
    ∀ (pre : List Visit) (n : Nat),
      (∀ j u, pre[j]? = some u → VisitSucceeds w out template dest vals (n + j) u) →
      VisitFails w out template dest vals (n + pre.length) v e →
      (filepathWalk (walkFn w inp out template dest vals (gen w)) n (pre ++ v :: post)).1 = .err e ∧
        writes (filepathWalk (walkFn w inp out template dest vals (gen w)) n
          (pre ++ v :: post)).2 = expectedOutputs w out template dest vals n pre ∧
        (expectedOutputs w out template dest vals n pre).length
          = pre.countP (fun u => !u.isDir)
  | [], n, _, hv => by
    have h := walkFn_fails w inp out template dest vals n v e (by simpa using hv)
    have h1 := h.1
    have h2 := h.2
    revert h1 h2
    cases hfn : walkFn w inp out template dest vals (gen w) n v with
    | mk r ev =>
      intro h1 h2
      simp only at h1 h2
      subst h1
      simp [filepathWalk, hfn, expectedOutputs, h2]
  | u :: pre, n, hpre, hv => by
    have hu := walkFn_succeeds w inp out template dest vals n u (by simpa using hpre 0 u (by simp))
    have ih := filepathWalk_abort w inp out template dest vals v post e pre (n + 1)
      (fun j x hx => by
        have := hpre (j + 1) x (by simpa using hx)
        rwa [show n + (j + 1) = n + 1 + j by omega] at this)
      (by rwa [show n + (u :: pre).length = n + 1 + pre.length by simp; omega] at hv)
    obtain ⟨h1, h2, h3⟩ := hu
    revert h1 h2
    cases hfn : walkFn w inp out template dest vals (gen w) n u with
    | mk r ev =>
      intro h1 h2
      simp only at h1 h2
      subst h1
      simp only [List.cons_append, filepathWalk, hfn, expectedOutputs, writes_append, h2,
        List.length_append, h3, ih.2.2, List.countP_cons]
      refine ⟨ih.1, congrArg _ ih.2.1, ?_⟩
      cases u.isDir
      · simp
        omega
      · simp

/-- The events of a generator call are file writes. -/
theorem gen_events (w : World) (n : Nat) (inp out : GoString) (vals : Doc) :
    ∀ ev ∈ (gen w n inp out vals).2, ∃ data r, ev = .writeFile out data r := by
  intro ev hev
  cases hr : w.readFile n inp with
  | error e => simp [gen, hr] at hev
  | ok text =>
    cases ht : w.tmpl text vals with
    | error e => simp [gen, hr, ht] at hev
    | ok buf =>
      simp only [gen, hr, ht, List.mem_singleton] at hev
      exact ⟨buf, _, hev⟩

/-- The events of one visit: two printed lines, a directory creation, and writes to
the destination of the visited file. -/
theorem walkFn_events (w : World) (inp out template dest : GoString) (vals : Doc) (n : Nat)
    (v : Visit) :
    ∀ ev ∈ (walkFn w inp out template dest vals (gen w) n v).2,
      (∃ s, ev = .stdout s) ∨ (∃ p, ev = .mkdirAll p) ∨
        ∃ file data r, prepareFilepath w.tmpl v.mpath vals = .ok file ∧
          ev = .writeFile (saveto out dest template file) data r := by
  intro ev hev
  unfold walkFn at hev
  cases herr : v.err with
  | some e => simp [herr] at hev
  | none =>
    cases hd : v.isDir with
    | true => simp [herr, hd] at hev
    | false =>
      cases hp : prepareFilepath w.tmpl v.mpath vals with
      | err e => simp [herr, hd, hp] at hev
      | panic m => simp [herr, hd, hp] at hev
      | ok file =>
        cases hm : w.mkdirAll n (filepath.Dir (saveto out dest template file)) with
        | some e =>
          simp only [herr, hd, hp, mkdirr, hm] at hev
          simp at hev
          rcases hev with h | h | h
          · exact Or.inl ⟨_, h⟩
          · exact Or.inl ⟨_, h⟩
          · exact Or.inr (Or.inl ⟨_, h⟩)
        | none =>
          simp only [herr, hd, hp, mkdirr, hm] at hev
          simp at hev
          rcases hev with h | h | h | h
          · exact Or.inl ⟨_, h⟩
          · exact Or.inl ⟨_, h⟩
          · exact Or.inr (Or.inl ⟨_, h⟩)
          · obtain ⟨data, r, hw⟩ := gen_events w n v.mpath _ vals ev h
            exact Or.inr (Or.inr ⟨file, data, r, rfl, hw⟩)

/-- Every event of a walk is an event of the visit of one of its entries. -/
theorem filepathWalk_events (fn : Nat → Visit → Res Unit × List Event) :
    ∀ (vs : List Visit) (n : Nat), ∀ ev ∈ (filepathWalk fn n vs).2,
      ∃ k, ∃ v ∈ vs, ev ∈ (fn k v).2
  | [], _, ev, hev => by simp [filepathWalk] at hev
  | v :: vs, n, ev, hev => by
    unfold filepathWalk at hev
    cases hfn : fn n v with
    | mk r evs =>
      cases r with
      | ok u =>
        simp only [hfn, List.mem_append] at hev
        rcases hev with h | h
        · exact ⟨n, v, List.mem_cons_self v vs, by rw [hfn]; exact h⟩
        · obtain ⟨k, x, hx, hk⟩ := filepathWalk_events fn vs (n + 1) ev h
          exact ⟨k, x, List.mem_cons_of_mem v hx, hk⟩
      | err e =>
        simp only [hfn] at hev
        exact ⟨n, v, List.mem_cons_self v vs, by rw [hfn]; exact hev⟩
      | panic m =>
        simp only [hfn] at hev
        exact ⟨n, v, List.mem_cons_self v vs, by rw [hfn]; exact hev⟩

/-- The events of `walk` with the generator `gen`. -/
theorem walk_events (w : World) (inp out template dest : GoString) (vals : Doc) :
    ∀ ev ∈ (walk w inp out template dest vals (gen w)).2,
      (∃ s, ev = .stdout s) ∨ (∃ p, ev = .mkdirAll p) ∨
        ∃ v ∈ w.visits inp, ∃ file data r, prepareFilepath w.tmpl v.mpath vals = .ok file ∧
          ev = .writeFile (saveto out dest template file) data r := by
  intro ev hev
  obtain ⟨k, v, hv, hk⟩ := filepathWalk_events _ _ _ ev hev
  rcases walkFn_events w inp out template dest vals k v ev hk with h | h | ⟨file, data, r, hp, h⟩
  · exact Or.inl h
  · exact Or.inr (Or.inl h)
  · exact Or.inr (Or.inr ⟨v, hv, file, data, r, hp, h⟩)

/-- C8. Walk aborts on the first error without rollback: when the visits before
position `pre.length` succeed and the file at that position fails with `e` in path
resolution, directory creation or the generator, `walk` returns `e`; the
successful writes of the run are exactly the outputs of the entries before that
position, one for each file among them, each at its destination; nothing is
written for the failing file or any later one, and nothing is removed. -/
theorem walk_aborts_at_first_failure (w : World) (inp out template dest : GoString)
    (vals : Doc) (pre post : List Visit) (v : Visit) (e : GoError)
    (hvisits : w.visits inp = pre ++ v :: post)
    (hpre : ∀ j u, pre[j]? = some u → VisitSucceeds w out template dest vals j u)
    (hv : VisitFails w out template dest vals pre.length v e) :
    (walk w inp out template dest vals (gen w)).1 = .err e ∧
      writes (walk w inp out template dest vals (gen w)).2
        = expectedOutputs w out template dest vals 0 pre ∧
      (expectedOutputs w out template dest vals 0 pre).length
        = pre.countP (fun u => !u.isDir) ∧
      ∀ ev ∈ (walk w inp out template dest vals (gen w)).2, ∀ p, ev.removes p = false := by
  have h := filepathWalk_abort w inp out template dest vals v post e pre 0
    (fun j u hu => by simpa using hpre j u hu) (by simpa using hv)
  refine ⟨?_, ?_, h.2.2, ?_⟩
  · simpa [walk, hvisits] using h.1
  · simpa [walk, hvisits] using h.2.1
  · intro ev hev p
    rcases walk_events w inp out template dest vals ev hev with
      ⟨s, hs⟩ | ⟨q, hq⟩ | ⟨_, _, _, _, _, _, hw⟩
    · subst hs; rfl
    · subst hq; rfl
    · subst hw; rfl

/-- C8 on three files `a.txt`, `bad.txt`, `c.txt`, the second failing to parse:
the walk returns the parse error, `a.txt` is written and nothing else. -/
theorem walk_aborts_at_first_failure_witness :
    (walk brokenTemplate "/s/myapp/templates".toList "o".toList "/s".toList "out1".toList []
        (gen brokenTemplate)).1 = .err ⟨"template: bad.txt:1: unclosed action", false⟩ ∧
      writes (walk brokenTemplate "/s/myapp/templates".toList "o".toList "/s".toList
        "out1".toList [] (gen brokenTemplate)).2
        = [("o/out1/myapp/templates/a.txt".toList, "hello".toList)] := by
  have h := walk_aborts_at_first_failure brokenTemplate "/s/myapp/templates".toList "o".toList
    "/s".toList "out1".toList []
    [⟨"/s/myapp/templates".toList, true, none⟩, ⟨"/s/myapp/templates/a.txt".toList, false, none⟩]
    [⟨"/s/myapp/templates/c.txt".toList, false, none⟩]
    ⟨"/s/myapp/templates/bad.txt".toList, false, none⟩
    ⟨"template: bad.txt:1: unclosed action", false⟩ (by decide)
    (fun j u hu => by
      match j, hu with
      | 0, hu =>
        simp at hu
        subst hu
        exact ⟨rfl, Or.inl rfl⟩
      | 1, hu =>
        simp at hu
        subst hu
        exact ⟨rfl, Or.inr ⟨"/s/myapp/templates/a.txt".toList, by decide, by decide, by decide⟩⟩
      | j + 2, hu => simp at hu)
    ⟨rfl, rfl, Or.inr ⟨"/s/myapp/templates/bad.txt".toList, by decide,
      Or.inr ⟨by decide, by decide⟩⟩⟩
  exact ⟨h.1, h.2.1.trans (by decide)⟩

/-! ## Properties of `path.Clean` and `path.Join` -/

theorem elements_ne_nil : ∀ p : GoString, path.elements p ≠ []
  | [] => by simp [path.elements]
  | c :: s => by
    unfold path.elements
    by_cases hc : c = '/'
    · simp [hc]
    · simp only [hc, if_false]
      cases path.elements s <;> simp

theorem elements_append_slash (b : GoString) :
    ∀ a : GoString, path.elements (a ++ '/' :: b) = path.elements a ++ path.elements b
  | [] => by simp [path.elements]
  | c :: a => by
    have ih := elements_append_slash b a
    by_cases hc : c = '/'
    · simp [path.elements, hc, ih]
    · have hne := elements_ne_nil a
      cases he : path.elements a with
      | nil => exact absurd he hne
      | cons e es =>
        simp [path.elements, hc, ih, he]

theorem elements_slashfree : ∀ (p : GoString), ∀ e ∈ path.elements p, '/' ∉ e
  | [], e, he => by
    simp [path.elements] at he
    simp [he]
  | c :: s, e, he => by
    have ih := elements_slashfree s
    unfold path.elements at he
    by_cases hc : c = '/'
    · simp only [hc, if_true, List.mem_cons] at he
      rcases he with h | h
      · simp [h]
      · exact ih e h
    · simp only [hc, if_false] at he
      cases hs : path.elements s with
      | nil => exact absurd hs (elements_ne_nil s)
      | cons x xs =>
        simp only [hs, List.mem_cons] at he
        rcases he with h | h
        · subst h
          have hx := ih x (by simp [hs])
          simp only [List.mem_cons, not_or]
          exact ⟨fun h2 => hc h2.symm, hx⟩
        · exact ih e (by simp [hs, h])

theorem elements_of_slashfree : ∀ a : GoString, '/' ∉ a → path.elements a = [a]
  | [], _ => rfl
  | c :: a, h => by
    simp only [List.mem_cons, not_or] at h
    have ih := elements_of_slashfree a h.2
    have hc : ¬ c = '/' := fun h2 => h.1 h2.symm
    simp [path.elements, hc, ih]

theorem intercalate_cons_cons (sep a b : GoString) (l : List GoString) :
    sep.intercalate (a :: b :: l) = a ++ sep ++ sep.intercalate (b :: l) := by
  simp [List.intercalate, List.intersperse]

theorem intercalate_singleton (sep a : GoString) : sep.intercalate [a] = a := by
  simp [List.intercalate, List.intersperse]

/-- Joining slash-free elements by slashes and splitting again gives them back. -/
theorem elements_intercalate :
    ∀ (a : GoString) (l : List GoString), (∀ e ∈ a :: l, '/' ∉ e) →
      path.elements ("/".toList.intercalate (a :: l)) = a :: l
  | a, [], h => by
    rw [intercalate_singleton]
    exact elements_of_slashfree a (h a (by simp))
  | a, b :: l, h => by
    have ih := elements_intercalate b l (fun e he => h e (List.mem_cons_of_mem a he))
    rw [intercalate_cons_cons]
    have : a ++ "/".toList ++ "/".toList.intercalate (b :: l)
        = a ++ '/' :: "/".toList.intercalate (b :: l) := by simp
    rw [this, elements_append_slash, ih, elements_of_slashfree a (h a (by simp))]
    rfl

theorem cleanStep_skip (rooted : Bool) (st : List GoString) (e : GoString)
    (h : e = [] ∨ e = ".".toList) : path.cleanStep rooted st e = st := by
  unfold path.cleanStep
  rw [if_pos h]

theorem cleanStep_push (rooted : Bool) (st : List GoString) (e : GoString)
    (h : ¬ (e = [] ∨ e = ".".toList)) (h2 : e ≠ "..".toList) :
    path.cleanStep rooted st e = e :: st := by
  unfold path.cleanStep
  rw [if_neg h, if_neg h2]

theorem cleanStep_valid (rooted : Bool) (st : List GoString) (e : GoString)
    (hst : ValidStack st) (he : '/' ∉ e) : ValidStack (path.cleanStep rooted st e) := by
  by_cases h1 : e = [] ∨ e = ".".toList
  · rw [cleanStep_skip rooted st e h1]
    exact hst
  · have hv : ValidStack (e :: st) := by
      intro x hx
      rcases List.mem_cons.1 hx with h | h
      · subst h
        exact ⟨fun h => h1 (Or.inl h), fun h => h1 (Or.inr h), he⟩
      · exact hst x h
    by_cases h2 : e = "..".toList
    · unfold path.cleanStep
      rw [if_neg h1, if_pos h2]
      cases st with
      | nil =>
        cases rooted
        · exact hv
        · intro x hx
          simp at hx
      | cons top rest =>
        by_cases h3 : top = "..".toList
        · simp only []
          rw [if_pos h3]
          exact hv
        · simp only []
          rw [if_neg h3]
          exact fun x hx => hst x (List.mem_cons_of_mem top hx)
    · rw [cleanStep_push rooted st e h1 h2]
      exact hv

theorem foldl_cleanStep_valid (rooted : Bool) :
    ∀ (es : List GoString) (st : List GoString), ValidStack st → (∀ e ∈ es, '/' ∉ e) →
      ValidStack (es.foldl (path.cleanStep rooted) st)
  | [], st, hst, _ => hst
  | e :: es, st, hst, hes => by
    simp only [List.foldl_cons]
    exact foldl_cleanStep_valid rooted es _
      (cleanStep_valid rooted st e hst (hes e (by simp)))
      (fun x hx => hes x (List.mem_cons_of_mem e hx))

/-- Without `..` among the elements, cleaning only appends the naming ones. -/
theorem foldl_cleanStep_plain (rooted : Bool) :
    ∀ (es : List GoString) (st : List GoString), dotdot ∉ es →
      es.foldl (path.cleanStep rooted) st
        = (es.filter (fun e => decide (e ≠ [] ∧ e ≠ ".".toList))).reverse ++ st
  | [], st, _ => by simp
  | e :: es, st, h => by
    simp only [List.mem_cons, not_or] at h
    have ih := foldl_cleanStep_plain rooted es (path.cleanStep rooted st e) h.2
    simp only [List.foldl_cons, ih]
    have hne : e ≠ "..".toList := fun h2 => h.1 (by simp [dotdot, h2])
    by_cases h1 : e = [] ∨ e = ".".toList
    · have hf : ¬ (e ≠ [] ∧ e ≠ ".".toList) := by
        intro hh
        rcases h1 with h1 | h1
        · exact hh.1 h1
        · exact hh.2 h1
      rw [cleanStep_skip rooted st e h1, List.filter_cons_of_neg (by simpa using hf)]
    · have hf : e ≠ [] ∧ e ≠ ".".toList := ⟨fun h => h1 (Or.inl h), fun h => h1 (Or.inr h)⟩
      rw [cleanStep_push rooted st e h1 hne, List.filter_cons_of_pos (by simpa using hf)]
      simp

/-- The text joined from valid elements splits into them again, is not empty and
does not start with a slash. -/
theorem intercalate_valid (a : GoString) (l : List GoString) (h : ValidStack (a :: l)) :
    path.elements ("/".toList.intercalate (a :: l)) = a :: l ∧
      "/".toList.intercalate (a :: l) ≠ [] ∧
      ("/".toList.intercalate (a :: l)).head? ≠ some '/' := by
  have hel := elements_intercalate a l (fun e he => (h e he).2.2)
  have ha : a ≠ [] := (h a (by simp)).1
  refine ⟨hel, ?_, ?_⟩
  · intro hb
    rw [hb] at hel
    simp [path.elements] at hel
    exact ha hel.1
  · intro hb
    cases hbody : "/".toList.intercalate (a :: l) with
    | nil =>
      rw [hbody] at hb
      simp at hb
    | cons c rest =>
      rw [hbody] at hb hel
      have hc : c = '/' := by simpa using hb
      subst hc
      simp [path.elements] at hel
      exact ha hel.1

/-- The names of a rendered path are its elements, and it is rooted exactly when
asked to be. -/
theorem render_valid (rooted : Bool) (st : List GoString) (h : ValidStack st) :
    path.names (path.render rooted st) = st.reverse ∧
      path.isRooted (path.render rooted st) = rooted := by
  cases hrev : st.reverse with
  | nil =>
    have hst : st = [] := by simpa using hrev
    subst hst
    cases rooted
    · exact ⟨by decide, by decide⟩
    · exact ⟨by decide, by decide⟩
  | cons a l =>
    have hv : ValidStack (a :: l) := by
      intro e he
      exact h e (by
        have : e ∈ st.reverse := by rw [hrev]; exact he
        simpa using this)
    obtain ⟨hel, hne, hhead⟩ := intercalate_valid a l hv
    have hkeep : (a :: l).filter (fun e => decide (e ≠ [] ∧ e ≠ ".".toList)) = a :: l := by
      rw [List.filter_eq_self]
      intro e he
      have := hv e he
      simpa using ⟨this.1, this.2.1⟩
    cases rooted
    · have hr : path.render false st = "/".toList.intercalate (a :: l) := by
        unfold path.render
        rw [hrev]
        simp only [Bool.false_eq_true, if_false]
        rw [if_neg hne]
      rw [hr]
      refine ⟨by rw [path.names, hel, hkeep], ?_⟩
      simpa [path.isRooted] using hhead
    · have hr : path.render true st = '/' :: "/".toList.intercalate (a :: l) := by
        simp only [path.render, hrev]
        simp
      rw [hr]
      refine ⟨?_, by simp [path.isRooted]⟩
      have : path.elements ('/' :: "/".toList.intercalate (a :: l)) = [] :: (a :: l) := by
        rw [path.elements, if_pos rfl, hel]
      rw [path.names, this, List.filter_cons_of_neg (by simp), hkeep]

/-- Cleaning a non-empty path `a` extended by a slash and a path without `..`
gives a path inside the cleaned `a`. -/
theorem clean_extend_inside (a x : GoString) (ha : a ≠ []) (hx : dotdot ∉ path.elements x) :
    inside (path.Clean a) (path.Clean (a ++ '/' :: x)) := by
  have hne : a ++ '/' :: x ≠ [] := by simp
  have hhead : (a ++ '/' :: x).head? = a.head? := by
    cases a with
    | nil => exact absurd rfl ha
    | cons c a => rfl
  have hs : ValidStack ((path.elements a).foldl
      (path.cleanStep (decide (a.head? = some '/'))) []) :=
    foldl_cleanStep_valid _ _ _ (fun e he => by simp at he) (elements_slashfree a)
  have hclean1 : path.Clean a = path.render (decide (a.head? = some '/'))
      ((path.elements a).foldl (path.cleanStep (decide (a.head? = some '/'))) []) := by
    unfold path.Clean
    rw [if_neg ha]
  have hclean2 : path.Clean (a ++ '/' :: x) = path.render (decide (a.head? = some '/'))
      (((path.elements x).filter (fun e => decide (e ≠ [] ∧ e ≠ ".".toList))).reverse ++
        (path.elements a).foldl (path.cleanStep (decide (a.head? = some '/'))) []) := by
    unfold path.Clean
    rw [if_neg hne]
    simp only [hhead, elements_append_slash, List.foldl_append]
    rw [foldl_cleanStep_plain _ _ _ hx]
  have ht : ValidStack (((path.elements x).filter
      (fun e => decide (e ≠ [] ∧ e ≠ ".".toList))).reverse ++
        (path.elements a).foldl (path.cleanStep (decide (a.head? = some '/'))) []) := by
    intro e he
    rcases List.mem_append.1 he with h | h
    · have h2 : e ∈ (path.elements x).filter (fun e => decide (e ≠ [] ∧ e ≠ ".".toList)) := by
        simpa using h
      have h3 := List.mem_filter.1 h2
      have h4 : e ≠ [] ∧ e ≠ ".".toList := by simpa using h3.2
      exact ⟨h4.1, h4.2, elements_slashfree x e h3.1⟩
    · exact hs e h
  obtain ⟨hn1, hr1⟩ := render_valid _ _ hs
  obtain ⟨hn2, hr2⟩ := render_valid _ _ ht
  rw [hclean1, hclean2]
  refine ⟨by rw [hr1, hr2], ?_, ?_⟩
  · rw [hn1, hn2, List.reverse_append, List.reverse_reverse]
    exact List.prefix_append _ _
  · rw [hn1, hn2, List.reverse_append, List.reverse_reverse, List.drop_left]
    intro hmem
    exact hx (List.mem_filter.1 hmem).1

/-- The destination lies inside the joined output root and destination name when
these are not both empty and the rewritten path has no `..` element. -/
theorem join_inside (out dest x : GoString) (hne : out ≠ [] ∨ dest ≠ [])
    (hx : dotdot ∉ path.elements x) :
    inside (path.Join [out, dest]) (path.Join [out, dest, x]) := by
  cases out with
  | cons c out =>
    have h1 : path.Join [c :: out, dest] = path.Clean ((c :: out) ++ '/' :: dest) := by
      simp [path.Join, List.dropWhile, intercalate_cons_cons, intercalate_singleton]
    have h2 : path.Join [c :: out, dest, x]
        = path.Clean (((c :: out) ++ '/' :: dest) ++ '/' :: x) := by
      simp [path.Join, List.dropWhile, intercalate_cons_cons, intercalate_singleton]
    rw [h1, h2]
    exact clean_extend_inside _ x (by simp) hx
  | nil =>
    cases dest with
    | nil => simp at hne
    | cons c dest =>
      have h1 : path.Join [[], c :: dest] = path.Clean (c :: dest) := by
        simp [path.Join, List.dropWhile, intercalate_singleton]
      have h2 : path.Join [[], c :: dest, x] = path.Clean ((c :: dest) ++ '/' :: x) := by
        simp [path.Join, List.dropWhile, intercalate_cons_cons, intercalate_singleton]
      rw [h1, h2]
      exact clean_extend_inside _ x (by simp) hx

/-- C4 (amended). Every write of `walk` is the write of one visited file, to the
destination `path.Join(out, dest, X)` that `walk` hands to the generator for it,
`X` being the relative part computed from its resolved path; and for that file
alone: when `out` and `dest` are not both empty and `X` has no `..` element, the
destination has `path.Join(out, dest)` as a path prefix. -/
theorem walk_writes_inside (w : World) (inp out template dest : GoString) (vals : Doc)
    (p data : GoString) (r : Option GoError)
    (hmem : Event.writeFile p data r ∈ (walk w inp out template dest vals (gen w)).2) :
    ∃ v ∈ w.visits inp, ∃ file, v.isDir = false ∧
      prepareFilepath w.tmpl v.mpath vals = .ok file ∧
      p = path.Join [out, dest, relativePart template file] ∧
      ((out ≠ [] ∨ dest ≠ []) → dotdot ∉ path.elements (relativePart template file) →
        inside (path.Join [out, dest]) p) := by
  obtain ⟨k, v, hv, hk⟩ := filepathWalk_events _ _ _ _ hmem
  have hfile : v.isDir = false := by
    cases hd : v.isDir with
    | false => rfl
    | true =>
      cases herr : v.err with
      | some e => simp [walkFn, herr] at hk
      | none => simp [walkFn, herr, hd] at hk
  rcases walkFn_events w inp out template dest vals k v _ hk with
    ⟨s, hs⟩ | ⟨q, hq⟩ | ⟨file, d2, r2, hp, hw⟩
  · cases hs
  · cases hq
  · have hpath : p = saveto out dest template file := by
      injection hw
    refine ⟨v, hv, file, hfile, hp, hpath, fun hne hx => ?_⟩
    rw [hpath]
    exact join_inside out dest _ hne hx

/-- C4 (amended) on a tree in which one file climbs out (`f` below the directories
named `.x.`) and one does not (`n/b.md`): the write for `n/b.md` goes to
`o/d/n/templates/n/b.md`, inside `o/d`, whatever the other file does. -/
theorem walk_writes_inside_witness :
    Event.writeFile "o/d/n/templates/n/b.md".toList "hello".toList none
        ∈ (walk mixedTree "x/n/templates".toList "o".toList "x".toList "d".toList []
          (gen mixedTree)).2 ∧
      inside (path.Join ["o".toList, "d".toList]) "o/d/n/templates/n/b.md".toList := by
  have hmem : Event.writeFile "o/d/n/templates/n/b.md".toList "hello".toList none
      ∈ (walk mixedTree "x/n/templates".toList "o".toList "x".toList "d".toList []
        (gen mixedTree)).2 := by decide
  refine ⟨hmem, ?_⟩
  obtain ⟨v, hv, file, hd, hp, hpeq, hin⟩ :=
    walk_writes_inside mixedTree "x/n/templates".toList "o".toList "x".toList "d".toList []
      "o/d/n/templates/n/b.md".toList "hello".toList none hmem
  have hv2 : v = ⟨"x/n/templates/.x./.x./.x./.x./.x./f".toList, false, none⟩ ∨
      v = ⟨"x/n/templates/n/b.md".toList, false, none⟩ := by
    simp [mixedTree, dottedDirs, calm] at hv
    rcases hv with h | h | h | h | h | h | h | h | h
    · subst h; simp at hd
    · subst h; simp at hd
    · subst h; simp at hd
    · subst h; simp at hd
    · subst h; simp at hd
    · subst h; simp at hd
    · exact Or.inl h
    · subst h; simp at hd
    · exact Or.inr h
  rcases hv2 with h | h
  · subst h
    have hf : prepareFilepath mixedTree.tmpl "x/n/templates/.x./.x./.x./.x./.x./f".toList []
        = .ok "x/n/templates/.x./.x./.x./.x./.x./f".toList := by decide
    rw [hf] at hp
    cases hp
    exact absurd hpeq (by decide)
  · subst h
    have hf : prepareFilepath mixedTree.tmpl "x/n/templates/n/b.md".toList []
        = .ok "x/n/templates/n/b.md".toList := by decide
    rw [hf] at hp
    cases hp
    exact hin (Or.inl (by decide)) (by decide)

/-- C4 (counterexample). Three runs whose write lands outside
`path.Join(out, dest)`: a file below directories named `.x.` with templates root
`x` is written to `../f`, outside `o/d`; a file in a directory named `{{.up}}`
with `up` set to `../../../../..` is written to `../f`, outside `o/d`; and
`ska -t /s -o ""` on the empty template name, where `out` and `dest` are both
empty, writes `/templates/a/b.txt`. -/
theorem walk_writes_outside :
    (Event.writeFile "../f".toList "hello".toList none
        ∈ (walk dottedDirs "x/n/templates".toList "o".toList "x".toList "d".toList []
          (gen dottedDirs)).2 ∧
      ¬ inside (path.Join ["o".toList, "d".toList]) "../f".toList) ∧
    (Event.writeFile "../f".toList "hello".toList none
        ∈ (walk templatedDir "/s/n/templates".toList "o".toList "/s".toList "d".toList
          [("up".toList, .str "../../../../..".toList)] (gen templatedDir)).2 ∧
      ¬ inside (path.Join ["o".toList, "d".toList]) "../f".toList) ∧
    (Event.writeFile "/templates/a/b.txt".toList "hello".toList none
        ∈ (Run emptyName flagsEmpty [] 1).2 ∧
      ¬ inside (path.Join [[], []]) "/templates/a/b.txt".toList) := by
  refine ⟨⟨?_, ?_⟩, ⟨?_, ?_⟩, ⟨?_, ?_⟩⟩ <;> decide

/-! ## Properties of `main` -/

/-- The events of `tempfile` are hard links. -/
theorem tempfile_events (w : World) (p : GoString) :
    ∀ ev ∈ (tempfile w p).2, ∃ a b, ev = .link a b := by
  intro ev hev
  unfold tempfile at hev
  cases ha : w.abs p with
  | error e => simp [ha] at hev
  | ok pabs =>
    cases hl : w.link pabs (w.tempDir ++ "/temp-".toList ++ filepath.Base p) with
    | none =>
      simp only [ha, hl, List.mem_singleton] at hev
      exact ⟨_, _, hev⟩
    | some e =>
      simp only [ha, hl, List.mem_singleton] at hev
      exact ⟨_, _, hev⟩

/-- The events of lines 67-72: printed lines, messages on the error stream, and
outputs. -/
theorem generate_events (w : World) (fl : Flags) (arg tp : GoString) (vv : Option Doc) :
    ∀ ev ∈ (generate w fl arg tp vv).2,
      (∃ s, ev = .stdout s) ∨ (∃ s, ev = .stderr s) ∨ ev.isOutput = true := by
  intro ev hev
  cases vv with
  | none => simp [generate] at hev
  | some d =>
    simp only [generate] at hev
    have key : ∀ x ∈ (walk w tp fl.out fl.ska (if fl.dest = [] then arg else fl.dest)
        ((Doc.set d "template".toList (.str arg)).set "dest".toList
          (.str (if fl.dest = [] then arg else fl.dest))) (gen w)).2,
        (∃ s, x = .stdout s) ∨ (∃ s, x = .stderr s) ∨ x.isOutput = true := by
      intro x hx
      rcases walk_events w _ _ _ _ _ x hx with ⟨s, hs⟩ | ⟨q, hq⟩ | ⟨_, _, _, _, _, _, hw⟩
      · exact Or.inl ⟨s, hs⟩
      · subst hq
        exact Or.inr (Or.inr rfl)
      · subst hw
        exact Or.inr (Or.inr rfl)
    revert hev key
    cases walk w tp fl.out fl.ska (if fl.dest = [] then arg else fl.dest)
        ((Doc.set d "template".toList (.str arg)).set "dest".toList
          (.str (if fl.dest = [] then arg else fl.dest))) (gen w) with
    | mk r evs =>
      intro hev key
      cases r with
      | ok u => exact key ev hev
      | panic m => exact key ev hev
      | err e =>
        simp only [List.mem_append] at hev
        rcases hev with h | h
        · exact key ev h
        · simp only [must, List.mem_singleton] at h
          exact Or.inr (Or.inl ⟨_, h⟩)

/-- The edit loop when the decodes of turns `n` to `n + k - 1` fail and that of
turn `n + k` succeeds, the editor (if enabled) returning each time: the loop ends
with the decoded document after `k + 1` decodes and `k` waits for a line, with one
editor run per turn when the editor is enabled and none otherwise. -/
theorem editLoop_retries (w : World) (fl : Flags) (tmp : GoString) (d : Doc) :
    ∀ (k n fuel : Nat), k < fuel →
      (fl.isInvokeEditor = true → ∀ i, i ≤ k → w.runEditor (n + i) fl.editor tmp = none) →
      (∀ i, i < k → ∃ e, w.decodeFile (n + i) tmp = .error e) →
      w.decodeFile (n + k) tmp = .ok d →
      (editLoop w fl tmp fuel n).1 = .decoded d ∧
        (editLoop w fl tmp fuel n).2.countP Event.isEditorRun
          = (if fl.isInvokeEditor then k + 1 else 0) ∧
        (editLoop w fl tmp fuel n).2.countP Event.isDecode = k + 1 ∧
        (editLoop w fl tmp fuel n).2.countP Event.isScan = k ∧
        ∀ ev ∈ (editLoop w fl tmp fuel n).2, ev.isOutput = false ∧ ∀ p, ev.removes p = false
  | _, _, 0, hlt, _, _, _ => absurd hlt (Nat.not_lt_zero _)
  | 0, n, fuel + 1, _, hedit, _, hok => by
    have hok2 : w.decodeFile n tmp = .ok d := by simpa using hok
    cases hflag : fl.isInvokeEditor with
    | false =>
      simp [editLoop, hflag, vals, hok2, Event.isEditorRun, Event.isDecode, Event.isScan,
        Event.isOutput, Event.removes]
    | true =>
      have he : w.runEditor n fl.editor tmp = none := by simpa using hedit hflag 0 (Nat.le_refl 0)
      simp [editLoop, hflag, invokeEditor, he, vals, hok2, Event.isEditorRun, Event.isDecode,
        Event.isScan, Event.isOutput, Event.removes]
  | k + 1, n, fuel + 1, hlt, hedit, hfail, hok => by
    obtain ⟨e, hdec⟩ := hfail 0 (Nat.succ_pos k)
    have hdec2 : w.decodeFile n tmp = .error e := by simpa using hdec
    have ih := editLoop_retries w fl tmp d k (n + 1) fuel (by omega)
      (fun hflag i hi => by
        have := hedit hflag (i + 1) (by omega)
        rwa [show n + (i + 1) = n + 1 + i by omega] at this)
      (fun i hi => by
        have := hfail (i + 1) (by omega)
        rwa [show n + (i + 1) = n + 1 + i by omega] at this)
      (by rwa [show n + (k + 1) = n + 1 + k by omega] at hok)
    obtain ⟨ih1, ih2, ih3, ih4, ih5⟩ := ih
    cases hflag : fl.isInvokeEditor with
    | false =>
      rw [hflag] at ih2
      simp only [editLoop, hflag, vals, hdec2, Bool.false_eq_true, if_false, List.nil_append,
        List.countP_append, List.countP_cons, List.countP_nil, List.cons_append, ih1, ih2, ih3,
        ih4, Event.isEditorRun, Event.isDecode, Event.isScan]
      refine ⟨trivial, by simp, by simp, by simp, ?_⟩
      intro ev hev
      simp only [List.mem_cons] at hev
      rcases hev with h | h | h | h
      · subst h; exact ⟨rfl, fun _ => rfl⟩
      · subst h; exact ⟨rfl, fun _ => rfl⟩
      · subst h; exact ⟨rfl, fun _ => rfl⟩
      · exact ih5 ev h
    | true =>
      have he : w.runEditor n fl.editor tmp = none := by simpa using hedit hflag 0 (Nat.zero_le _)
      rw [hflag] at ih2
      simp only [editLoop, hflag, invokeEditor, he, vals, hdec2, if_true, List.nil_append,
        List.countP_append, List.countP_cons, List.countP_nil, List.cons_append, ih1, ih2, ih3,
        ih4, Event.isEditorRun, Event.isDecode, Event.isScan]
      refine ⟨trivial, by simp, by simp, by simp, ?_⟩
      intro ev hev
      simp only [List.mem_cons] at hev
      rcases hev with h | h | h | h | h
      · subst h; exact ⟨rfl, fun _ => rfl⟩
      · subst h; exact ⟨rfl, fun _ => rfl⟩
      · subst h; exact ⟨rfl, fun _ => rfl⟩
      · subst h; exact ⟨rfl, fun _ => rfl⟩
      · exact ih5 ev h

/-- The edit loop with the editor disabled and a values file that never decodes:
after any number of turns it is still running, with one decode and one wait for a
line per turn, no editor run and no output. -/
theorem editLoop_keeps_failing (w : World) (fl : Flags) (tmp : GoString)
    (hed : fl.isInvokeEditor = false) (hfail : ∀ n, ∃ e, w.decodeFile n tmp = .error e) :
    ∀ (fuel n : Nat),
      (editLoop w fl tmp fuel n).1 = .running ∧
        (editLoop w fl tmp fuel n).2.countP Event.isDecode = fuel ∧
        (editLoop w fl tmp fuel n).2.countP Event.isScan = fuel ∧
        ∀ ev ∈ (editLoop w fl tmp fuel n).2, ev.isOutput = false ∧ ev.isEditorRun = false
  | 0, _ => by simp [editLoop]
  | fuel + 1, n => by
    obtain ⟨e, hdec⟩ := hfail n
    obtain ⟨ih1, ih2, ih3, ih4⟩ := editLoop_keeps_failing w fl tmp hed hfail fuel (n + 1)
    simp only [editLoop, hed, vals, hdec, Bool.false_eq_true, if_false, List.nil_append,
      List.countP_append, List.countP_cons, List.countP_nil, List.cons_append, ih1, ih2, ih3,
      Event.isDecode, Event.isScan]
    refine ⟨trivial, by simp, by simp, ?_⟩
    intro ev hev
    simp only [List.mem_cons] at hev
    rcases hev with h | h | h | h
    · subst h; exact ⟨rfl, rfl⟩
    · subst h; exact ⟨rfl, rfl⟩
    · subst h; exact ⟨rfl, rfl⟩
    · exact ih4 ev h

/-- The run once the working copy exists and the edit loop has ended with a decoded
document: the working copy is removed and lines 67-72 run on the document. -/
theorem Run_decoded (w : World) (fl : Flags) (arg tmp : GoString) (fuel : Nat)
    (ev0 ev1 : List Event) (d : Doc)
    (htf : tempfile w (tplPaths fl.ska arg).1 = (.ok tmp, ev0))
    (hl : editLoop w fl tmp fuel 0 = (.decoded d, ev1)) :
    Run w fl arg fuel
      = ((generate w fl arg (tplPaths fl.ska arg).2 (some d)).1,
          ev0 ++ ev1
            ++ (match w.removeAll tmp with
                | some e => [.removeAll tmp, .stderr e.msg]
                | none => [.removeAll tmp])
            ++ (generate w fl arg (tplPaths fl.ska arg).2 (some d)).2) := by
  simp only [Run, htf, hl]

/-- The run while the edit loop has not ended. -/
theorem Run_running (w : World) (fl : Flags) (arg tmp : GoString) (fuel : Nat)
    (ev0 ev1 : List Event)
    (htf : tempfile w (tplPaths fl.ska arg).1 = (.ok tmp, ev0))
    (hl : editLoop w fl tmp fuel 0 = (.running, ev1)) :
    Run w fl arg fuel = (.running, ev0 ++ ev1) := by
  simp only [Run, htf, hl]

/-- The run with the editor enabled when the first `k` decodes fail and decode
`k + 1` succeeds with `d`: lines 67-72 run on `d` after the loop, and the editor
runs, decodes and waits are counted. -/
theorem Run_retry_then_generate (w : World) (fl : Flags) (arg tmp : GoString) (k : Nat) (d : Doc)
    (fuel : Nat) (hfuel : k < fuel)
    (hed : fl.isInvokeEditor = true)
    (htmp : (tempfile w (tplPaths fl.ska arg).1).1 = .ok tmp)
    (hedit : ∀ i, i ≤ k → w.runEditor i fl.editor tmp = none)
    (hfail : ∀ i, i < k → ∃ e, w.decodeFile i tmp = .error e)
    (hok : w.decodeFile k tmp = .ok d) :
    (Run w fl arg fuel).1 = (generate w fl arg (tplPaths fl.ska arg).2 (some d)).1 ∧
      (∃ pre, (Run w fl arg fuel).2
          = pre ++ (generate w fl arg (tplPaths fl.ska arg).2 (some d)).2 ∧
        ∀ ev ∈ pre, ev.isOutput = false) ∧
      (Run w fl arg fuel).2.countP Event.isEditorRun = k + 1 ∧
      (Run w fl arg fuel).2.countP Event.isDecode = k + 1 ∧
      (Run w fl arg fuel).2.countP Event.isScan = k := by
  have hloop := editLoop_retries w fl tmp d k 0 fuel hfuel
    (fun _ i hi => by simpa using hedit i hi) (fun i hi => by simpa using hfail i hi)
    (by simpa using hok)
  rw [hed] at hloop
  have hev0 := tempfile_events w (tplPaths fl.ska arg).1
  have hgen := generate_events w fl arg (tplPaths fl.ska arg).2 (some d)
  revert htmp hev0 hloop
  cases htf : tempfile w (tplPaths fl.ska arg).1 with
  | mk r0 ev0 =>
    cases hl : editLoop w fl tmp fuel 0 with
    | mk lr ev1 =>
      intro htmp hloop hev0
      simp only at htmp hev0 hloop
      subst htmp
      obtain ⟨h1, h2, h3, h4, h5⟩ := hloop
      subst h1
      rw [Run_decoded w fl arg tmp fuel ev0 ev1 d htf hl]
      have z0 : ∀ q : Event → Bool, (∀ a b, q (.link a b) = false) → ev0.countP q = 0 := by
        intro q hq
        rw [List.countP_eq_zero]
        intro ev hev
        obtain ⟨a, b, hab⟩ := hev0 ev hev
        subst hab
        simp [hq]
      have zg : ∀ q : Event → Bool, (∀ s, q (.stdout s) = false) → (∀ s, q (.stderr s) = false) →
          (∀ ev, ev.isOutput = true → q ev = false) →
          (generate w fl arg (tplPaths fl.ska arg).2 (some d)).2.countP q = 0 := by
        intro q hq1 hq2 hq3
        rw [List.countP_eq_zero]
        intro ev hev
        rcases hgen ev hev with ⟨s, hs⟩ | ⟨s, hs⟩ | ho
        · subst hs; simp [hq1]
        · subst hs; simp [hq2]
        · simp [hq3 ev ho]
      have zr : ∀ q : Event → Bool, (∀ p, q (.removeAll p) = false) →
          (∀ s, q (.stderr s) = false) →
          (match w.removeAll tmp with
            | some e => [Event.removeAll tmp, .stderr e.msg]
            | none => [.removeAll tmp]).countP q = 0 := by
        intro q hq1 hq2
        cases w.removeAll tmp <;> simp [hq1, hq2]
      have out3 : ∀ ev : Event, ev.isOutput = true →
          ev.isEditorRun = false ∧ ev.isDecode = false ∧ ev.isScan = false := by
        intro ev h
        cases ev <;> simp [Event.isOutput] at h <;> exact ⟨rfl, rfl, rfl⟩
      refine ⟨rfl, ⟨_, rfl, ?_⟩, ?_, ?_, ?_⟩
      · intro ev hev
        simp only [List.mem_append] at hev
        rcases hev with (h | h) | h
        · obtain ⟨a, b, hab⟩ := hev0 ev h
          subst hab
          rfl
        · exact (h5 ev h).1
        · cases hrm : w.removeAll tmp with
          | none =>
            rw [hrm] at h
            simp at h
            subst h
            rfl
          | some e =>
            rw [hrm] at h
            simp at h
            rcases h with h | h <;> subst h <;> rfl
      · simp only [List.countP_append, h2,
          z0 Event.isEditorRun (fun _ _ => rfl),
          zr Event.isEditorRun (fun _ => rfl) (fun _ => rfl),
          zg Event.isEditorRun (fun _ => rfl) (fun _ => rfl) (fun ev h => (out3 ev h).1)]
        simp
      · simp only [List.countP_append, h3,
          z0 Event.isDecode (fun _ _ => rfl),
          zr Event.isDecode (fun _ => rfl) (fun _ => rfl),
          zg Event.isDecode (fun _ => rfl) (fun _ => rfl) (fun ev h => (out3 ev h).2.1)]
        simp
      · simp only [List.countP_append, h4,
          z0 Event.isScan (fun _ _ => rfl),
          zr Event.isScan (fun _ => rfl) (fun _ => rfl),
          zg Event.isScan (fun _ => rfl) (fun _ => rfl) (fun ev h => (out3 ev h).2.2)]
        simp

/-- Lines 67-72 on a decoded document: `walk` is called with the document extended
by the two injected keys, and its error, if any, goes through `must`. -/
theorem generate_some (w : World) (fl : Flags) (arg tp : GoString) (d : Doc) :
    generate w fl arg tp (some d)
      = ((match (walk w tp fl.out fl.ska (if fl.dest = [] then arg else fl.dest)
              ((d.set "template".toList (.str arg)).set "dest".toList
                (.str (if fl.dest = [] then arg else fl.dest))) (gen w)).1 with
          | .ok _ => Outcome.returned
          | .err _ => .exit (-1)
          | .panic m => .panic m),
         (walk w tp fl.out fl.ska (if fl.dest = [] then arg else fl.dest)
              ((d.set "template".toList (.str arg)).set "dest".toList
                (.str (if fl.dest = [] then arg else fl.dest))) (gen w)).2
           ++ (match (walk w tp fl.out fl.ska (if fl.dest = [] then arg else fl.dest)
              ((d.set "template".toList (.str arg)).set "dest".toList
                (.str (if fl.dest = [] then arg else fl.dest))) (gen w)).1 with
              | .err e => must 72 e
              | _ => [])) := by
  simp only [generate]
  cases walk w tp fl.out fl.ska (if fl.dest = [] then arg else fl.dest)
      ((d.set "template".toList (.str arg)).set "dest".toList
        (.str (if fl.dest = [] then arg else fl.dest))) (gen w) with
  | mk r evs =>
    cases r <;> simp

/-- A log without output events has no successful write. -/
theorem writes_of_no_output :
    ∀ l : List Event, (∀ ev ∈ l, ev.isOutput = false) → writes l = []
  | [], _ => rfl
  | ev :: l, h => by
    have ih := writes_of_no_output l (fun x hx => h x (List.mem_cons_of_mem ev hx))
    have hev := h ev (List.mem_cons_self ev l)
    cases ev <;> simp [Event.isOutput] at hev <;> simp [writes, ih]

/-- C5. Decode-failure retry loop with the editor enabled: when the working copy
is created, the first `k` decodes fail and decode `k + 1` succeeds with the
document `d` (the editor returning each time, so that the decodes take place),
the run leaves the loop and generation proceeds with that document: after the
loop `walk` is called on the templates directory with `d` extended by the keys
`template` and `dest`, the run ends as that walk ends, its log is the log of the
loop followed by the log of that walk, and its successful writes are those of
that walk.  The editor is run exactly `k + 1` times, the file is decoded exactly
`k + 1` times, and a line of input is waited for exactly `k` times. -/
theorem Run_edit_retry (w : World) (fl : Flags) (arg tmp : GoString) (k : Nat) (d : Doc)
    (fuel : Nat) (hfuel : k < fuel)
    (hed : fl.isInvokeEditor = true)
    (htmp : (tempfile w (tplPaths fl.ska arg).1).1 = .ok tmp)
    (hedit : ∀ i, i ≤ k → w.runEditor i fl.editor tmp = none)
    (hfail : ∀ i, i < k → ∃ e, w.decodeFile i tmp = .error e)
    (hok : w.decodeFile k tmp = .ok d)
    (dest : GoString) (hdest : dest = if fl.dest = [] then arg else fl.dest)
    (doc : Doc)
    (hdoc : doc = (d.set "template".toList (.str arg)).set "dest".toList (.str dest)) :
    (Run w fl arg fuel).1
        = (match (walk w (tplPaths fl.ska arg).2 fl.out fl.ska dest doc (gen w)).1 with
          | .ok _ => Outcome.returned
          | .err _ => .exit (-1)
          | .panic m => .panic m) ∧
      (∃ pre, (Run w fl arg fuel).2
          = pre ++ (walk w (tplPaths fl.ska arg).2 fl.out fl.ska dest doc (gen w)).2
            ++ (match (walk w (tplPaths fl.ska arg).2 fl.out fl.ska dest doc (gen w)).1 with
                | .err e => must 72 e
                | _ => []) ∧
        ∀ ev ∈ pre, ev.isOutput = false) ∧
      writes (Run w fl arg fuel).2
        = writes (walk w (tplPaths fl.ska arg).2 fl.out fl.ska dest doc (gen w)).2 ∧
      (Run w fl arg fuel).2.countP Event.isEditorRun = k + 1 ∧
      (Run w fl arg fuel).2.countP Event.isDecode = k + 1 ∧
      (Run w fl arg fuel).2.countP Event.isScan = k := by
  subst hdest hdoc
  obtain ⟨h1, ⟨pre, hlog, hpre⟩, h3, h4, h5⟩ :=
    Run_retry_then_generate w fl arg tmp k d fuel hfuel hed htmp hedit hfail hok
  rw [generate_some] at h1 hlog
  simp only at h1 hlog
  refine ⟨h1, ⟨pre, by rw [hlog, List.append_assoc], hpre⟩, ?_, h3, h4, h5⟩
  rw [hlog, writes_append, writes_append, writes_of_no_output pre hpre]
  have hm : writes (match (walk w (tplPaths fl.ska arg).2 fl.out fl.ska
      (if fl.dest = [] then arg else fl.dest)
      ((d.set "template".toList (.str arg)).set "dest".toList
        (.str (if fl.dest = [] then arg else fl.dest))) (gen w)).1 with
      | .err e => must 72 e
      | _ => []) = [] := by
    cases (walk w (tplPaths fl.ska arg).2 fl.out fl.ska
      (if fl.dest = [] then arg else fl.dest)
      ((d.set "template".toList (.str arg)).set "dest".toList
        (.str (if fl.dest = [] then arg else fl.dest))) (gen w)).1 <;> simp [writes, must]
  rw [hm]
  simp

/-- C5 for `k = 1`: the values file is malformed in the first turn and corrected to
`name = "db"` in the second.  The editor runs twice (one re-invocation), the file
is decoded twice, one acknowledgement is waited for, and generation runs with the
corrected document: the template `{{.name}} for {{.dest}}` is written as
`db for out1`. -/
theorem Run_edit_retry_witness :
    (Run fixedOnRetryNamed flagsEdit "myapp".toList 2).1 = .returned ∧
      writes (Run fixedOnRetryNamed flagsEdit "myapp".toList 2).2
        = [("o/out1/myapp/templates/a/b.txt".toList, "db for out1".toList)] ∧
      (Run fixedOnRetryNamed flagsEdit "myapp".toList 2).2.countP Event.isEditorRun = 2 ∧
      (Run fixedOnRetryNamed flagsEdit "myapp".toList 2).2.countP Event.isDecode = 2 ∧
      (Run fixedOnRetryNamed flagsEdit "myapp".toList 2).2.countP Event.isScan = 1 := by
  have h := Run_edit_retry fixedOnRetryNamed flagsEdit "myapp".toList
    "/tmp/temp-values.toml".toList 1 [("name".toList, .str "db".toList)] 2 (by decide) rfl rfl
    (fun _ _ => rfl)
    (fun i hi => by
      have hi0 : i = 0 := by omega
      subst hi0
      exact ⟨_, rfl⟩)
    rfl "out1".toList rfl
    [("name".toList, .str "db".toList), ("template".toList, .str "myapp".toList),
      ("dest".toList, .str "out1".toList)] rfl
  exact ⟨h.1.trans (by decide), h.2.2.1.trans (by decide), h.2.2.2.1, h.2.2.2.2.1,
    h.2.2.2.2.2⟩

/-- The edit loop with the editor disabled over turns whose decodes fail: each turn
decodes, prints the error and waits for a line, and the loop is still running. -/
theorem editLoop_failing_log (w : World) (fl : Flags) (tmp : GoString) (errs : Nat → GoError)
    (hed : fl.isInvokeEditor = false) :
    ∀ (fuel n : Nat), (∀ i, n ≤ i → i < n + fuel → w.decodeFile i tmp = .error (errs i)) →
      editLoop w fl tmp fuel n
        = (.running, (List.range' n fuel).flatMap (fun i =>
            [Event.decodeFile tmp,
              .stdout ("Error while parsing file: ".toList ++ (errs i).msg.toList ++ "\n".toList),
              .scan]))
  | 0, _, _ => by simp [editLoop]
  | fuel + 1, n, h => by
    have hdec := h n (Nat.le_refl n) (by omega)
    have ih := editLoop_failing_log w fl tmp errs hed fuel (n + 1)
      (fun i h1 h2 => h i (by omega) (by omega))
    simp only [editLoop, hed, vals, hdec, ih, Bool.false_eq_true, if_false, List.nil_append,
      List.range'_succ, List.flatMap_cons]
    simp

/-- C6 (amended). With the editor disabled and the working copy created, a values
file that fails to decode is not fatal.  For every number of turns in which the
decode fails, the run has not exited after those turns: its log is the hard link
followed, for each turn, by the decode, the printed error and the wait for a line
on standard input; the editor is not run and nothing is generated. -/
theorem Run_decode_error_retries (w : World) (fl : Flags) (arg tmp : GoString) (fuel : Nat)
    (errs : Nat → GoError)
    (hed : fl.isInvokeEditor = false)
    (htmp : (tempfile w (tplPaths fl.ska arg).1).1 = .ok tmp)
    (hfail : ∀ n, n < fuel → w.decodeFile n tmp = .error (errs n)) :
    Run w fl arg fuel
        = (.running, (tempfile w (tplPaths fl.ska arg).1).2
            ++ (List.range fuel).flatMap (fun n =>
              [Event.decodeFile tmp,
                .stdout ("Error while parsing file: ".toList ++ (errs n).msg.toList
                  ++ "\n".toList),
                .scan])) ∧
      ∀ ev ∈ (Run w fl arg fuel).2, ev.isOutput = false ∧ ev.isEditorRun = false := by
  have hloop := editLoop_failing_log w fl tmp errs hed fuel 0
    (fun i _ h2 => hfail i (by omega))
  have hev0 := tempfile_events w (tplPaths fl.ska arg).1
  revert htmp hev0
  cases htf : tempfile w (tplPaths fl.ska arg).1 with
  | mk r0 ev0 =>
    intro htmp hev0
    simp only at htmp hev0
    subst htmp
    have hrun := Run_running w fl arg tmp fuel ev0 _ htf hloop
    rw [hrun, List.range_eq_range']
    refine ⟨rfl, ?_⟩
    intro ev hev
    rcases List.mem_append.1 hev with h | h
    · obtain ⟨a, b, hab⟩ := hev0 ev h
      subst hab
      exact ⟨rfl, rfl⟩
    · simp only [List.mem_flatMap, List.mem_cons, List.mem_singleton, List.not_mem_nil,
        or_false] at h
      obtain ⟨i, _, h | h | h⟩ := h
      · subst h; exact ⟨rfl, rfl⟩
      · subst h; exact ⟨rfl, rfl⟩
      · subst h; exact ⟨rfl, rfl⟩

/-- C6 (amended) in the world whose values file fails to decode in the first turn
only: after that turn the run has not exited; it has linked the working copy,
decoded it, printed the error and waits for a line. -/
theorem Run_decode_error_retries_witness :
    Run fixedOnRetry flags "myapp".toList 1
      = (.running,
          [.link "/s/myapp/values.toml".toList "/tmp/temp-values.toml".toList,
            .decodeFile "/tmp/temp-values.toml".toList,
            .stdout "Error while parsing file: toml: expected key\n".toList,
            .scan]) :=
  (Run_decode_error_retries fixedOnRetry flags "myapp".toList "/tmp/temp-values.toml".toList 1
    (fun _ => ⟨"toml: expected key", false⟩) rfl rfl
    (fun n hn => by
      have hn0 : n = 0 := by omega
      subst hn0
      rfl)).1.trans (by decide)

/-- C6 (counterexample). With the editor disabled, a values file that never
decodes does not make the run exit, whatever the number of turns; and a values
file that fails to decode once and then decodes leads to generation: the run
returns and the output file is written. -/
theorem Run_decode_error_is_not_fatal :
    (¬ ∃ fuel code, (Run badValues flags "myapp".toList fuel).1 = .exit code) ∧
      (Run fixedOnRetry flags "myapp".toList 2).1 = .returned ∧
      writes (Run fixedOnRetry flags "myapp".toList 2).2
        = [("o/out1/myapp/templates/a/b.txt".toList, "hello".toList)] := by
  refine ⟨?_, by decide, by decide⟩
  rintro ⟨fuel, code, h⟩
  have hloop := editLoop_keeps_failing badValues flags "/tmp/temp-values.toml".toList rfl
    (fun _ => ⟨_, rfl⟩) fuel 0
  have hrun := Run_running badValues flags "myapp".toList "/tmp/temp-values.toml".toList fuel
    [.link "/s/myapp/values.toml".toList "/tmp/temp-values.toml".toList]
    (editLoop badValues flags "/tmp/temp-values.toml".toList fuel 0).2 rfl
    (by rw [← hloop.1])
  rw [hrun] at h
  cases h

/-- C7 (failing path). With the editor enabled and the working copy `tmp` created,
a failing first editor run makes the process exit with status -1 through `must`,
and no event of the run removes the working copy. -/
theorem Run_editor_failure_keeps_copy (w : World) (fl : Flags) (arg tmp : GoString)
    (e : GoError) (fuel : Nat) (hed : fl.isInvokeEditor = true)
    (htmp : (tempfile w (tplPaths fl.ska arg).1).1 = .ok tmp)
    (hfail : w.runEditor 0 fl.editor tmp = some e) :
    (Run w fl arg (fuel + 1)).1 = .exit (-1) ∧
      ∀ ev ∈ (Run w fl arg (fuel + 1)).2, ev.removes tmp = false := by
  have hev0 := tempfile_events w (tplPaths fl.ska arg).1
  have hl : editLoop w fl tmp (fuel + 1) 0
      = (.exited, [.invokeEditor fl.editor tmp] ++ must 45 e) := by
    simp [editLoop, hed, invokeEditor, hfail]
  revert htmp hev0
  cases htf : tempfile w (tplPaths fl.ska arg).1 with
  | mk r0 ev0 =>
    intro htmp hev0
    simp only at htmp hev0
    subst htmp
    simp only [Run, htf, hl]
    refine ⟨trivial, ?_⟩
    intro ev hev
    simp only [must, List.mem_append, List.mem_cons, List.mem_singleton, List.not_mem_nil,
      or_false] at hev
    rcases hev with h | h | h
    · obtain ⟨a, b, hab⟩ := hev0 ev h
      subst hab
      rfl
    · subst h; rfl
    · subst h; rfl

/-- C7 (failing path) in the world where the editor cannot be started: the run
exits with status -1 and its log is the link, the editor call and the message of
`must`; the working copy `/tmp/temp-values.toml` is never removed. -/
theorem Run_editor_failure_keeps_copy_witness :
    (Run noEditor flagsEdit "myapp".toList 1).1 = .exit (-1) ∧
      (Run noEditor flagsEdit "myapp".toList 1).2
        = [.link "/s/myapp/values.toml".toList "/tmp/temp-values.toml".toList,
            .invokeEditor "vi".toList "/tmp/temp-values.toml".toList,
            .stderr "main.go:45: exec: no command\n"] ∧
      ∀ ev ∈ (Run noEditor flagsEdit "myapp".toList 1).2,
        ev.removes "/tmp/temp-values.toml".toList = false :=
  have h := Run_editor_failure_keeps_copy noEditor flagsEdit "myapp".toList
    "/tmp/temp-values.toml".toList ⟨"exec: no command", false⟩ 0 rfl rfl rfl
  ⟨h.1, by decide, h.2⟩

/-- C3 (failing path). When `tempfile` fails with a not-exist error, the run
panics on the assignment into the nil map `vv` (line 67): `walk` is not called
and nothing is generated. -/
theorem Run_missing_values_panics (w : World) (fl : Flags) (arg : GoString) (e : GoError)
    (fuel : Nat) (htmp : (tempfile w (tplPaths fl.ska arg).1).1 = .error e)
    (hne : IsNotExist e = true) :
    (Run w fl arg fuel).1 = .panic "assignment to entry in nil map" ∧
      ∀ ev ∈ (Run w fl arg fuel).2, ev.isOutput = false := by
  have hev0 := tempfile_events w (tplPaths fl.ska arg).1
  revert htmp hev0
  cases htf : tempfile w (tplPaths fl.ska arg).1 with
  | mk r0 ev0 =>
    intro htmp hev0
    simp only at htmp hev0
    subst htmp
    simp only [Run, htf, hne, if_true, generate, List.append_nil]
    refine ⟨trivial, ?_⟩
    intro ev hev
    obtain ⟨a, b, hab⟩ := hev0 ev hev
    subst hab
    rfl

/-- C3 (failing path) in the world without a values file, editor disabled: the run
panics after the failed link, without any other event. -/
theorem Run_missing_values_panics_witness :
    (Run missingValues flags "myapp".toList 1).1 = .panic "assignment to entry in nil map" ∧
      (Run missingValues flags "myapp".toList 1).2
        = [.link "/s/myapp/values.toml".toList "/tmp/temp-values.toml".toList] :=
  have h := Run_missing_values_panics missingValues flags "myapp".toList
    ⟨"link: no such file or directory", true⟩ 1 rfl rfl
  ⟨h.1, by decide⟩

/-- C1 (failing input). Templates root `/s`, template set `myapp`, output root
`o`, destination `out1`, file `/s/myapp/templates/a/b.txt`: the destination `walk`
computes is `o/out1/myapp/templates/a/b.txt`, which the run writes; it is not
`o/out1/a/b.txt`. -/
theorem Run_keeps_template_set_prefix :
    saveto "o".toList "out1".toList "/s".toList "/s/myapp/templates/a/b.txt".toList
        = "o/out1/myapp/templates/a/b.txt".toList ∧
      (Run calm flags "myapp".toList 1).1 = .returned ∧
      writes (Run calm flags "myapp".toList 1).2
        = [("o/out1/myapp/templates/a/b.txt".toList, "hello".toList)] ∧
      "o/out1/myapp/templates/a/b.txt".toList ≠ "o/out1/a/b.txt".toList := by
  refine ⟨by decide, by decide, by decide, by decide⟩

end Ska
